import Mathlib

/-!
The eh-validator-api service: relay aggregation, retry policy and block-reward resolution

A shallow embedding of `pkg/relay/relay.go`, `pkg/ethnode/rpc_client.go` and the reward part of
`pkg/server/handler.go`.

Conventions of the embedding.

* A Go `error` is an `Option GoError` (`none` is the nil error).  A nil slice and an empty slice
  are both the empty list.
* Go `int`, `int64` and `time.Duration` are 64-bit two's-complement integers: they are `Int`
  values that are wrapped with `wrapInt64` wherever the source does arithmetic on them.
  `math/big` integers are `Int`.
* Remote parties (relays, the execution node) are oracles: functions giving the outcome of each
  request.  The node oracle is a function of the request only, i.e. the node answers the same
  request the same way during one resolution.
* The goroutines started by `GetRelayDatasBySlot` are interleaved by an explicit schedule.
* Logging is not modelled.
-/

namespace EhValidator

/-! ## Go values -/

/-- A Go error built with `github.com/pkg/errors`: a leaf message, or a cause wrapped with a
message. -/
inductive GoError where
  | msg (text : String)
  | wrap (cause : GoError) (text : String)
  deriving DecidableEq, Repr

/-- The call `errors.Wrapf(err, text)`; it returns nil when `err` is nil. -/
def Wrapf : Option GoError → String → Option GoError
  | none, _ => none
  | some e, text => some (GoError.wrap e text)

/-- Two's-complement wrap of an integer into the range of `int64`. -/
def wrapInt64 (x : Int) : Int := (x + 2 ^ 63) % 2 ^ 64 - 2 ^ 63

/-- Values of the Go types `uint64` and (on a 64-bit platform) `uint`. -/
abbrev Uint64 := Fin 18446744073709551616

/-- The conversion `int(u)` of an unsigned 64-bit value: the same bits read as two's
complement. -/
def intOfUint (u : Uint64) : Int :=
  if u.val < 9223372036854775808 then (u.val : Int) else (u.val : Int) - 18446744073709551616

/-- Nanoseconds in `time.Second`. -/
def Second : Int := 1000000000

/-! ## `pkg/relay`: retry -/

/-- What `retry` does to the outside world: it invokes the operation (`call j` is the invocation
number `j`, counted from 0) or calls `time.Sleep` with a duration in nanoseconds. -/
inductive RetryEvent where
  | call (j : Nat)
  | sleep (ns : Int)
  deriving DecidableEq, Repr

/-- The two named results of `retry` together with the events it caused, in order. -/
structure RetryOut (α : Type) where
  result : α
  err : Option GoError
  trace : List RetryEvent

/-- The `for i := 0; i < attempts; i++` loop of `retry`.  The first argument counts the
iterations still to run (`attempts - i`); `i`, `sleep`, `result` and `err` are the variables of
the source.  The operation `f` is an oracle: `f j` is what its invocation number `j` returns. -/
def retryLoop {α : Type} (attempts : Int) (f : Nat → α × Option GoError) :
    Nat → Nat → Int → α → Option GoError → RetryOut α
  | 0, _, _, result, err =>
    ⟨result, Wrapf err ("after " ++ toString attempts ++ " attempts"), []⟩
  | left + 1, i, sleep, _, _ =>
    let pre : List RetryEvent :=
      if 0 < i then [RetryEvent.sleep (wrapInt64 (sleep * Second))] else []
    let sleep1 : Int := if 0 < i then wrapInt64 (sleep * 2) else sleep
    let r := f i
    match r.2 with
    | none => ⟨r.1, none, pre ++ [RetryEvent.call i]⟩
    | some e =>
      let out := retryLoop attempts f left (i + 1) sleep1 r.1 (some e)
      ⟨out.result, out.err, pre ++ RetryEvent.call i :: out.trace⟩

/-- The function `retry` of `relay.go`. -/
def retry {α : Type} [Inhabited α] (attempts : Int) (sleep : Int)
    (f : Nat → α × Option GoError) : RetryOut α :=
  retryLoop attempts f attempts.toNat 0 sleep default none

/-! ## `pkg/relay`: bid traces and the aggregation -/

/-- The struct `BidTrace` of `relay.go`. -/
structure BidTrace where
  Slot : Nat
  Value : String
  ProposerFeeRecipient : String
  BlockNumber : String
  deriving DecidableEq, Repr

/-- Outcome of one HTTP exchange of `getRelayDataBySlot`, one constructor per exit of the
function. -/
inductive RelayReply where
  | newRequestFailed (e : GoError)
  | doFailed (e : GoError)
  | decodeFailed (e : GoError)
  | decoded (result : List BidTrace)

/-- The relays as seen by one aggregation: the outcome of request number `j` (from 0) that
goroutine number `g` sends to `url`. -/
abbrev RelayNet := Nat → String → Nat → RelayReply

/-- The method `getRelayDataBySlot`, as invocation number `j` of goroutine `g`. -/
def getRelayDataBySlot (net : RelayNet) (g : Nat) (relayEndpoint : String) (slot : Nat)
    (j : Nat) : List BidTrace × Option GoError :=
  let url := relayEndpoint ++ "/relay/v1/data/bidtraces/proposer_payload_delivered?limit=1&cursor="
    ++ toString slot
  match net g url j with
  | RelayReply.newRequestFailed e =>
    ([], Wrapf (some e) ("failed to NewRequestWithContext url:" ++ url))
  | RelayReply.doFailed e =>
    ([], Wrapf (some e) ("failed to retrieve delivered payloads url:" ++ url))
  | RelayReply.decodeFailed e =>
    ([], Wrapf (some e) ("failed to decode delivered payloads:" ++ url))
  | RelayReply.decoded result => (result, none)

/-- State of one goroutine of the error group after its `retry` call: it is about to return an
error, it is walking the entries of its response, or it has returned. -/
inductive Task where
  | failed (e : GoError)
  | running (todo : List BidTrace)
  | done

/-- The goroutine body up to and including the `if err != nil` after `retry`. -/
def startTask (net : RelayNet) (slot : Nat) (g : Nat) (v : String) : Task :=
  let out := retry 2 1 (getRelayDataBySlot net g v slot)
  match out.err with
  | some e => Task.failed (GoError.wrap e "failed to getRelayDataBySlot")
  | none => Task.running out.result

/-- One goroutine per element of `relayEndpoints`, in order, numbered from `g`. -/
def startTasks (net : RelayNet) (slot : Nat) : Nat → List String → List Task
  | _, [] => []
  | g, v :: vs => startTask net slot g v :: startTasks net slot (g + 1) vs

/-- One atomic step of a goroutine: it returns its error, or it examines the next entry of its
response and appends it to `result` (under the mutex) when the slot matches, or it returns nil.
The step yields the new goroutine state, the entries appended and the error returned. -/
def stepTask (slot : Nat) : Task → Task × List BidTrace × Option GoError
  | Task.failed e => (Task.done, [], some e)
  | Task.running (b :: rest) => (Task.running rest, if b.Slot = slot then [b] else [], none)
  | Task.running [] => (Task.done, [], none)
  | Task.done => (Task.done, [], none)

/-- The step of goroutine number `g` among the goroutines of the group. -/
def stepTasks (slot : Nat) : Nat → List Task → List Task × List BidTrace × Option GoError
  | _, [] => ([], [], none)
  | 0, t :: ts => ((stepTask slot t).1 :: ts, (stepTask slot t).2)
  | g + 1, t :: ts => (t :: (stepTasks slot g ts).1, (stepTasks slot g ts).2)

/-- The error group with the shared slice: goroutine states, `result`, and the first error
recorded by the group. -/
structure Group where
  tasks : List Task
  result : List BidTrace
  err : Option GoError

/-- The group after goroutine `g` has taken one step.  The group keeps the first error only. -/
def Group.step (slot : Nat) (st : Group) (g : Nat) : Group :=
  let r := stepTasks slot g st.tasks
  ⟨r.1, st.result ++ r.2.1, st.err.orElse (fun _ => r.2.2)⟩

/-- The rest of the `for i := range bidTrace` loop of one goroutine, run without interruption. -/
def drainTodo (slot : Nat) : List BidTrace → List BidTrace
  | [] => []
  | b :: rest => (if b.Slot = slot then [b] else []) ++ drainTodo slot rest

/-- The goroutines that have not returned yet run to completion one after the other. -/
def drainTasks (slot : Nat) : List Task → List BidTrace → Option GoError →
    List BidTrace × Option GoError
  | [], result, err => (result, err)
  | Task.failed e :: ts, result, err => drainTasks slot ts result (err.orElse (fun _ => some e))
  | Task.running todo :: ts, result, err => drainTasks slot ts (result ++ drainTodo slot todo) err
  | Task.done :: ts, result, err => drainTasks slot ts result err

/-- The method `Requester.GetRelayDatasBySlot`.  One goroutine is started per element of
`relayEndpoints`, each with its own `v` (the loop variable is per iteration).  The goroutines
take steps in the order given by `sched` (a list of goroutine numbers); when the schedule is
used up the remaining work is done in goroutine order, so every schedule is an execution in
which `eg.Wait` returns, and every interleaving of the appends is the execution of some
schedule.  The cancellation of the group context after a first error shows in the replies that
the relay oracle gives to the other goroutines. -/
def GetRelayDatasBySlot (relayEndpoints : List String) (net : RelayNet) (slot : Nat)
    (sched : List Nat) : List BidTrace × Option GoError :=
  let st0 : Group := ⟨startTasks net slot 0 relayEndpoints, [], none⟩
  let st := sched.foldl (Group.step slot) st0
  let fin := drainTasks slot st.tasks st.result st.err
  match fin.2 with
  | some e => ([], some e)
  | none => (fin.1, none)

/-! ## `math/big` -/

/-- Value of a decimal digit character. -/
def digitVal (c : Char) : Option Nat :=
  if 48 ≤ c.toNat ∧ c.toNat ≤ 57 then some (c.toNat - 48) else none

/-- Scan of a run of decimal digits up to the end of the input, most significant digit first. -/
def scanDigits : List Char → Nat → Option Nat
  | [], acc => some acc
  | c :: cs, acc =>
    match digitVal c with
    | some d => scanDigits cs (acc * 10 + d)
    | none => none

/-- A number needs at least one digit. -/
def scanNat : List Char → Option Nat
  | [] => none
  | c :: cs => scanDigits (c :: cs) 0

/-- The call `new(big.Int).SetString(s, 10)`: an optional sign, then one or more decimal digits,
then the end of the string.  The result is `none` when Go reports `ok == false`. -/
def SetString10 (s : String) : Option Int :=
  match s.data with
  | [] => none
  | c :: cs =>
    if c = '-' then (scanNat cs).map (fun n => -(n : Int))
    else if c = '+' then (scanNat cs).map (fun n => (n : Int))
    else (scanNat (c :: cs)).map (fun n => (n : Int))

/-- The method `(*big.Int).String`: the decimal rendering. -/
def bigString (x : Int) : String := toString x

/-- The method `(*big.Int).Int64`: the low 64 bits of the magnitude as an `int64`, negated for a
negative number. -/
def bigInt64 (x : Int) : Int :=
  let v := wrapInt64 ((x.natAbs % 2 ^ 64 : Nat) : Int)
  if x < 0 then wrapInt64 (-v) else v

/-! ## `pkg/ethnode`: the execution node -/

/-- A `common.Hash`, in its hexadecimal form. -/
abbrev Hash := String

/-- The zero value of `common.Hash`. -/
def zeroHash : Hash := "0x0000000000000000000000000000000000000000000000000000000000000000"

/-- The fields of `types.Header` that the source reads.  `BaseFee` is a `*big.Int`; it is
`none` for the nil pointer of a header without `baseFeePerGas`. -/
structure Header where
  BaseFee : Option Int
  GasUsed : Uint64
  deriving DecidableEq, Repr

/-- The fields of `types.Receipt` that the source reads.  `EffectiveGasPrice` is a `*big.Int`;
it is `none` for the nil pointer of a receipt without `effectiveGasPrice`. -/
structure Receipt where
  EffectiveGasPrice : Option Int
  GasUsed : Uint64
  TransactionIndex : Uint64
  TxHash : Hash
  deriving DecidableEq, Repr

/-- What the source reads of a `types.Transaction`: `To()`, a `*common.Address` that is the
nil pointer (`none`) for a contract creation and is otherwise given by its `Hex()` form, and
`Value()`, the transferred amount. -/
structure Transaction where
  To : Option String
  Value : Int
  deriving DecidableEq, Repr

/-- The JSON-RPC client held by `NativeClient`, as an oracle. -/
structure NativeClient where
  HeaderByNumber : Int → Except GoError Header
  BlockReceipts : Int → Except GoError (List Receipt)
  TransactionByHash : Hash → Except GoError Transaction

/-- A request sent to the node. -/
inductive NodeCall where
  | HeaderByNumber (number : Int)
  | BlockReceipts (number : Int)
  | TransactionByHash (hash : Hash)
  deriving DecidableEq, Repr

/-- One iteration of the `for _, r := range txReceipts` loop of `GetBlockRewardByBlockNumber`;
`len` is `len(txReceipts)`, the accumulator holds `totalTxFee` and `lastTxHash`, and it is
`none` once `Mul` has dereferenced a nil `EffectiveGasPrice` (the loop has panicked). -/
def rewardStep (len : Int) (acc : Option (Int × Hash)) (r : Receipt) : Option (Int × Hash) :=
  match acc with
  | none => none
  | some (totalTxFee, lastTxHash) =>
    match r.EffectiveGasPrice with
    | none => none
    | some price =>
      let txFee := price * (r.GasUsed.val : Int)
      some (totalTxFee + txFee,
        if intOfUint r.TransactionIndex = len - 1 then r.TxHash else lastTxHash)

/-- The `for _, r := range txReceipts` loop of `GetBlockRewardByBlockNumber`; `none` when it
panics. -/
def rewardLoop (len : Int) (txReceipts : List Receipt) (totalTxFee : Int) (lastTxHash : Hash) :
    Option (Int × Hash) :=
  txReceipts.foldl (rewardStep len) (some (totalTxFee, lastTxHash))

/-- The computation of `GetBlockRewardByBlockNumber` once header and receipts are there; `none`
when it panics on a nil `EffectiveGasPrice` in the loop or on a nil `BaseFee` after it. -/
def blockRewardOf (header : Header) (txReceipts : List Receipt) : Option (Int × Hash) :=
  match rewardLoop (txReceipts.length : Int) txReceipts 0 zeroHash with
  | none => none
  | some acc =>
    match header.BaseFee with
    | none => none
    | some baseFee =>
      let burntFee := baseFee * (header.GasUsed.val : Int)
      some (acc.1 - burntFee, acc.2)

/-- The method `NativeClient.GetBlockRewardByBlockNumber`: what it returns (`none` when it
panics) and the requests it sends. -/
def NativeClient.GetBlockRewardByBlockNumber (c : NativeClient) (blockNumber : Int) :
    Option (Except GoError (Int × Hash)) × List NodeCall :=
  match c.HeaderByNumber blockNumber with
  | Except.error err => (some (Except.error err), [NodeCall.HeaderByNumber blockNumber])
  | Except.ok header =>
    match c.BlockReceipts (bigInt64 blockNumber) with
    | Except.error err =>
      (some (Except.error err),
        [NodeCall.HeaderByNumber blockNumber, NodeCall.BlockReceipts (bigInt64 blockNumber)])
    | Except.ok txReceipts =>
      ((blockRewardOf header txReceipts).map Except.ok,
        [NodeCall.HeaderByNumber blockNumber, NodeCall.BlockReceipts (bigInt64 blockNumber)])

/-- The method `NativeClient.GetTransactionByHash`, with the request it sends. -/
def NativeClient.GetTransactionByHash (c : NativeClient) (txHash : Hash) :
    Except GoError Transaction × List NodeCall :=
  (c.TransactionByHash txHash, [NodeCall.TransactionByHash txHash])

/-! ## `pkg/server`: block-reward resolution -/

/-- The part of `BeaconBlockResponse` under `Data.Message`: the slot and the execution payload
fields. -/
structure BeaconBlockResponse where
  Slot : String
  FeeRecipient : String
  BlockNumber : String
  deriving DecidableEq, Repr

/-- Result of a resolution: `(status, reward)` or an error, or `none` when the resolution
panics; with the node requests sent up to there. -/
abbrev Resolved := Option (Except GoError (String × String)) × List NodeCall

/-- The method `Handler.calculateVanilaBlockReward`. -/
def calculateVanilaBlockReward (c : NativeClient) (blockNumberStr : String) : Resolved :=
  match SetString10 blockNumberStr with
  | none =>
    (some (Except.error
      (GoError.msg ("failed set blockNumberStr: " ++ blockNumberStr ++ " to big.Int"))), [])
  | some blockNumber =>
    let r := c.GetBlockRewardByBlockNumber blockNumber
    match r.1 with
    | none => (none, r.2)
    | some (Except.error _) =>
      (some (Except.error
        (GoError.msg ("failed to GetBlockRewardByBlockNumber: " ++ bigString blockNumber))), r.2)
    | some (Except.ok (blockReward, _)) =>
      (some (Except.ok ("vanilla", bigString blockReward)), r.2)

/-- The search loop of `calculateMevBlockReward`.  The result is `some (some v)` for the first
bid trace `v` whose value is the decimal rendering of the value of the last transaction and
whose proposer fee recipient is its recipient, `some none` when the loop ends without one, and
`none` when the loop panics: the second operand `lastTx.To().Hex()` of the condition is
evaluated once the values are equal, and it dereferences a nil recipient. -/
def matchLastTx (lastTx : Transaction) : List BidTrace → Option (Option BidTrace)
  | [] => some none
  | v :: vs =>
    if bigString lastTx.Value = v.Value then
      match lastTx.To with
      | none => none
      | some addr =>
        if addr = v.ProposerFeeRecipient then some (some v) else matchLastTx lastTx vs
    else matchLastTx lastTx vs

/-- The end of `calculateMevBlockReward`, from `reward := bidTrace.Value` on, for the matched
bid trace. -/
def rewardOfMatch (beaconBlock : BeaconBlockResponse) (bidTrace : BidTrace) (blockReward : Int) :
    Except GoError (String × String) :=
  if beaconBlock.FeeRecipient = bidTrace.ProposerFeeRecipient then
    match SetString10 bidTrace.Value with
    | none =>
      Except.error (GoError.msg ("failed set bidTrace.Value: " ++ bidTrace.Value ++ " to big.Int"))
    | some ProposerFee => Except.ok ("mev", bigString (ProposerFee + blockReward))
  else Except.ok ("mev", bidTrace.Value)

/-- The method `Handler.calculateMevBlockReward`.  It panics on `bidTraces[0]` of an empty
slice, in `GetBlockRewardByBlockNumber`, and in the search loop. -/
def calculateMevBlockReward (c : NativeClient) (bidTraces : List BidTrace)
    (beaconBlock : BeaconBlockResponse) : Resolved :=
  match bidTraces with
  | [] => (none, [])
  | first :: _ =>
    match SetString10 first.BlockNumber with
    | none =>
      (some (Except.error (GoError.msg
        ("failed set bidTraces[0].BlockNumber: " ++ first.BlockNumber ++ " to big.Int"))), [])
    | some blockNumber =>
      let r := c.GetBlockRewardByBlockNumber blockNumber
      match r.1 with
      | none => (none, r.2)
      | some (Except.error _) =>
        (some (Except.error (GoError.msg
          ("failed to h.nativeClient.GetBlockRewardByBlockNumber:" ++ bigString blockNumber))),
          r.2)
      | some (Except.ok (blockReward, lastTxHash)) =>
        let t := c.GetTransactionByHash lastTxHash
        match t.1 with
        | Except.error _ =>
          (some (Except.error (GoError.msg
            ("failed to h.nativeClient.GetTransactionByHash:" ++ lastTxHash))), r.2 ++ t.2)
        | Except.ok lastTx =>
          match matchLastTx lastTx bidTraces with
          | none => (none, r.2 ++ t.2)
          | some none =>
            let v := calculateVanilaBlockReward c first.BlockNumber
            (v.1, r.2 ++ t.2 ++ v.2)
          | some (some bidTrace) =>
            (some (rewardOfMatch beaconBlock bidTrace blockReward), r.2 ++ t.2)

/-- The choice made by `Handler.GetBlockreward` once the bid traces and the beacon block are
there: the `if len(bidTraces) > 0` statement. -/
def resolveBlockreward (c : NativeClient) (bidTraces : List BidTrace)
    (beaconBlock : BeaconBlockResponse) : Resolved :=
  if 0 < bidTraces.length then calculateMevBlockReward c bidTraces beaconBlock
  else calculateVanilaBlockReward c beaconBlock.BlockNumber

/-! ## `strconv` and `strings` -/

/-- The call `strconv.ParseUint(s, 10, 64)`: one or more decimal digits and nothing else (no
sign, no underscore), with a value below `2 ^ 64`.  The result is `none` when Go returns an
error (a malformed string or a value out of range). -/
def ParseUint64 (s : String) : Option Nat :=
  match scanNat s.data with
  | some n => if n < 18446744073709551616 then some n else none
  | none => none

/-- The call `strings.Split(s, "/")`. -/
def Split (s : String) : List String :=
  (s.data.splitOn '/').map String.mk

/-- The call `strings.Join(elems, "/")`. -/
def Join (elems : List String) : String :=
  String.mk (List.intercalate ['/'] (elems.map String.data))

/-- The function `sanitizeUrl` of `beacon.go`.  The result is `none` when one of the two index
assignments panics with an index out of range. -/
def sanitizeUrl (url : String) : Option String :=
  let urlSlice := Split url
  if 2 < urlSlice.length then
    if 3 < urlSlice.length then
      some (Join ((urlSlice.set 2 "\x7bENDPOINT\x7d").set 3 "\x7bKEY\x7d"))
    else none
  else none

/-- The function `NewNativeClient`; `dial` is the outcome of `ethclient.DialContext`.  On a dial
error the endpoint goes through `sanitizeUrl` for the log entry and for the wrapped error; the
result is `none` when that panics. -/
def NewNativeClient (dial : String → Except GoError NativeClient) (nodeEndpoint : String) :
    Option (Except GoError NativeClient) :=
  match dial nodeEndpoint with
  | Except.error err =>
    match sanitizeUrl nodeEndpoint with
    | none => none
    | some u => some (Except.error (GoError.wrap err ("failed to dial rpc url=" ++ u)))
  | Except.ok client => some (Except.ok client)

/-! ## `pkg/server`: the two handlers -/

/-- A `map[string]string` from validator index to public key, as an association list read with
`List.lookup`. -/
abbrev PubkeyMap := List (String × String)

/-- The beacon node as seen through `BeaconRequester`, as an oracle. -/
structure BeaconRequester where
  GetBeaconHeaderSlot : Except GoError Nat
  GetBeaconBlockBySlot : Nat → Except GoError BeaconBlockResponse
  GetSyncCommitteesBySlot : Nat → Except GoError (List String)
  GetValidatorsBySlot : Nat → Except GoError PubkeyMap

/-- A call that a handler makes to one of its collaborators. -/
inductive Downstream where
  | GetBeaconHeaderSlot
  | GetRelayDatasBySlot (slot : Nat)
  | GetBeaconBlockBySlot (slot : Nat)
  | node (call : NodeCall)
  | GetSyncCommitteesBySlot (slot : Nat)
  | GetValidatorsBySlot (slot : Nat)
  deriving DecidableEq, Repr

/-- The collaborators of `Handler`: the beacon requester, the native client, and the relay
requester (its endpoints, the relays, and the interleaving of its goroutines). -/
structure Handler where
  beaconRequester : BeaconRequester
  nativeClient : NativeClient
  relayEndpoints : List String
  net : RelayNet
  sched : List Nat

/-- Body of a response: the status text written by `http.Error`, or one of the two JSON
documents. -/
inductive Body where
  | text (statusText : String)
  | GetBlockrewardResponse (Status Reward : String)
  | GetSyncdutiesResponse (Data : List String)
  deriving DecidableEq, Repr

/-- An HTTP response: status code and body. -/
structure HttpResponse where
  code : Nat
  body : Body
  deriving DecidableEq, Repr

/-- The response of `http.Error(w, http.StatusText(http.StatusNotFound), http.StatusNotFound)`. -/
def notFound : HttpResponse := ⟨404, Body.text "Not Found"⟩

/-- The response of `http.Error` with `http.StatusBadRequest`. -/
def badRequest : HttpResponse := ⟨400, Body.text "Bad Request"⟩

/-- The response of `http.Error` with `http.StatusInternalServerError`. -/
def internalServerError : HttpResponse := ⟨500, Body.text "Internal Server Error"⟩

/-- The method `Handler.GetBlockreward` for the path parameter `reqSlotStr`: the response and
the calls made to the collaborators, in order.  The result is `none` when the handler panics. -/
def GetBlockreward (h : Handler) (reqSlotStr : String) :
    Option (HttpResponse × List Downstream) :=
  match ParseUint64 reqSlotStr with
  | none => some (notFound, [])
  | some reqSlot =>
    match h.beaconRequester.GetBeaconHeaderSlot with
    | Except.error _ => some (internalServerError, [Downstream.GetBeaconHeaderSlot])
    | Except.ok currSlot =>
      if currSlot < reqSlot then some (badRequest, [Downstream.GetBeaconHeaderSlot])
      else
        let relays := GetRelayDatasBySlot h.relayEndpoints h.net reqSlot h.sched
        let log1 := [Downstream.GetBeaconHeaderSlot, Downstream.GetRelayDatasBySlot reqSlot]
        match relays.2 with
        | some _ => some (internalServerError, log1)
        | none =>
          let log2 := log1 ++ [Downstream.GetBeaconBlockBySlot reqSlot]
          match h.beaconRequester.GetBeaconBlockBySlot reqSlot with
          | Except.error _ => some (internalServerError, log2)
          | Except.ok beaconBlock =>
            let res := resolveBlockreward h.nativeClient relays.1 beaconBlock
            match res.1 with
            | none => none
            | some (Except.error _) =>
              some (internalServerError, log2 ++ res.2.map Downstream.node)
            | some (Except.ok (status, reward)) =>
              some (⟨200, Body.GetBlockrewardResponse status reward⟩,
                log2 ++ res.2.map Downstream.node)

/-- What `UpdateValidatorIndexPubkeyMap` leaves behind: the error it returns, the field
`validatorIndexPubkey` (`none` is the nil pointer) and the calls made. -/
structure UpdateOut where
  err : Option GoError
  validatorIndexPubkey : Option PubkeyMap
  calls : List Downstream

/-- The method `Handler.UpdateValidatorIndexPubkeyMap` run by a single caller, so that the
single-flight group runs the function once.  The assignment
`h.validatorIndexPubkey, err = GetValidatorsBySlot(...)` stores what `GetValidatorsBySlot`
returns, which is the nil pointer whenever it returns an error. -/
def UpdateValidatorIndexPubkeyMap (b : BeaconRequester) (validatorIndexPubkey : Option PubkeyMap) :
    UpdateOut :=
  match b.GetBeaconHeaderSlot with
  | Except.error err =>
    ⟨Wrapf (some err) "failed to GetBeaconHeaderSlot", validatorIndexPubkey,
      [Downstream.GetBeaconHeaderSlot]⟩
  | Except.ok slot =>
    match b.GetValidatorsBySlot slot with
    | Except.error err =>
      ⟨Wrapf (some err) "failed to GetValidatorsBySlot", none,
        [Downstream.GetBeaconHeaderSlot, Downstream.GetValidatorsBySlot slot]⟩
    | Except.ok m =>
      ⟨none, some m, [Downstream.GetBeaconHeaderSlot, Downstream.GetValidatorsBySlot slot]⟩

/-- Outcome of the index-to-pubkey loop of `GetSyncduties`: a nil-pointer panic, an error
response after a failed rebuild, or the collected `data`; the last two with the state of the
field `validatorIndexPubkey` and the calls made. -/
inductive SyncLoopOut where
  | panic
  | failed (validatorIndexPubkey : Option PubkeyMap) (calls : List Downstream)
  | done (data : List String) (validatorIndexPubkey : Option PubkeyMap) (calls : List Downstream)

/-- The `for _, v := range *idxs` loop of `GetSyncduties`.  On a miss `pubkey` is the zero
value of `string`, the directory is rebuilt, and `pubkey` is appended as it is. -/
def syncLoop (b : BeaconRequester) :
    List String → Option PubkeyMap → List String → List Downstream → SyncLoopOut
  | [], dir, data, calls => SyncLoopOut.done data dir calls
  | _ :: _, none, _, _ => SyncLoopOut.panic
  | v :: vs, some m, data, calls =>
    match m.lookup v with
    | some pubkey => syncLoop b vs (some m) (data ++ [pubkey]) calls
    | none =>
      let u := UpdateValidatorIndexPubkeyMap b (some m)
      match u.err with
      | some _ => SyncLoopOut.failed u.validatorIndexPubkey (calls ++ u.calls)
      | none => syncLoop b vs u.validatorIndexPubkey (data ++ [""]) (calls ++ u.calls)

/-- The constant `2375680` of `GetSyncduties`: the first slot with a sync committee. -/
def syncCommitteeStartSlot : Nat := 2375680

/-- The method `Handler.GetSyncduties` for the path parameter `reqSlotStr`, started with the
given value of the field `validatorIndexPubkey`: the response, the value of the field
afterwards, and the calls made.  The result is `none` when the handler panics. -/
def GetSyncduties (h : Handler) (validatorIndexPubkey : Option PubkeyMap) (reqSlotStr : String) :
    Option (HttpResponse × Option PubkeyMap × List Downstream) :=
  match ParseUint64 reqSlotStr with
  | none => some (notFound, validatorIndexPubkey, [])
  | some reqSlot =>
    match h.beaconRequester.GetBeaconHeaderSlot with
    | Except.error _ =>
      some (internalServerError, validatorIndexPubkey, [Downstream.GetBeaconHeaderSlot])
    | Except.ok currSlot =>
      if currSlot < reqSlot then
        some (badRequest, validatorIndexPubkey, [Downstream.GetBeaconHeaderSlot])
      else if reqSlot < syncCommitteeStartSlot then
        some (notFound, validatorIndexPubkey, [Downstream.GetBeaconHeaderSlot])
      else
        let log1 := [Downstream.GetBeaconHeaderSlot, Downstream.GetSyncCommitteesBySlot reqSlot]
        match h.beaconRequester.GetSyncCommitteesBySlot reqSlot with
        | Except.error _ => some (internalServerError, validatorIndexPubkey, log1)
        | Except.ok idxs =>
          match syncLoop h.beaconRequester idxs validatorIndexPubkey [] log1 with
          | SyncLoopOut.panic => none
          | SyncLoopOut.failed dir calls => some (internalServerError, dir, calls)
          | SyncLoopOut.done data dir calls =>
            some (⟨200, Body.GetSyncdutiesResponse data⟩, dir, calls)

/-! ## The single-flight group of `UpdateValidatorIndexPubkeyMap` -/

/-- Modelled from the spec: an event of the concurrent callers of
`UpdateValidatorIndexPubkeyMap`: a caller reaches the group, or the execution in flight
finishes. -/
inductive FlightEvent where
  | arrive (caller : Nat)
  | finish
  deriving DecidableEq, Repr

/-- Modelled from the spec: the single-flight group `requestGroup` of the handler (the package
`golang.org/x/sync/singleflight` is not part of the sources), as the in-flight registry of the
specification: a new caller either starts the work or attaches to the work in flight, and
receives its result when it finishes.  The state holds the field `validatorIndexPubkey`, the
callers attached to the execution in flight (`none` when nothing is in flight, the starter
first), what each caller that has returned received, the number of executions of the rebuild
function, and the calls made to the beacon node. -/
structure FlightState where
  validatorIndexPubkey : Option PubkeyMap
  inflight : Option (List Nat)
  returned : List (Nat × Option GoError)
  executions : Nat
  calls : List Downstream

/-- Modelled from the spec: one event of the in-flight registry.  A caller that arrives while
nothing is in flight starts the work; one that arrives while an execution is in flight
attaches to it.  When the execution finishes, the rebuild function
(`UpdateValidatorIndexPubkeyMap` as run by a single caller) has run once on the current field,
every attached caller returns with its error, and nothing is in flight any more. -/
def FlightState.step (b : BeaconRequester) (st : FlightState) : FlightEvent → FlightState
  | FlightEvent.arrive caller =>
    match st.inflight with
    | none => { st with inflight := some [caller] }
    | some attached => { st with inflight := some (attached ++ [caller]) }
  | FlightEvent.finish =>
    match st.inflight with
    | none => st
    | some attached =>
      let u := UpdateValidatorIndexPubkeyMap b st.validatorIndexPubkey
      { validatorIndexPubkey := u.validatorIndexPubkey
        inflight := none
        returned := st.returned ++ attached.map (fun caller => (caller, u.err))
        executions := st.executions + 1
        calls := st.calls ++ u.calls }

/-- Modelled from the spec: the registry before any caller has arrived. -/
def FlightState.idle (validatorIndexPubkey : Option PubkeyMap) : FlightState :=
  ⟨validatorIndexPubkey, none, [], 0, []⟩

/-- Modelled from the spec: the registry after a sequence of events. -/
def runFlights (b : BeaconRequester) (validatorIndexPubkey : Option PubkeyMap)
    (events : List FlightEvent) : FlightState :=
  events.foldl (FlightState.step b) (FlightState.idle validatorIndexPubkey)

/-- Calls that overlap in time: every caller reaches the group before the execution that the
first of them started finishes. -/
def overlappingCalls (callers : List Nat) : List FlightEvent :=
  callers.map FlightEvent.arrive ++ [FlightEvent.finish]

/-- Number of validator-snapshot fetches among the calls made. -/
def snapshotFetches (calls : List Downstream) : Nat :=
  calls.countP (fun call =>
    match call with
    | Downstream.GetValidatorsBySlot _ => true
    | _ => false)

/-! ## Auxiliary notions for the statements -/

/-- What goroutine `g` obtains from endpoint `v`: the reply to its first request when that one
succeeded, the reply to its second request otherwise. -/
def relayResponse (net : RelayNet) (slot : Nat) (g : Nat) (v : String) : List BidTrace :=
  if (getRelayDataBySlot net g v slot 0).2 = none then (getRelayDataBySlot net g v slot 0).1
  else (getRelayDataBySlot net g v slot 1).1

/-- The query of goroutine `g` to endpoint `v` succeeds within its two attempts. -/
def RelaySucceeds (net : RelayNet) (slot : Nat) (g : Nat) (v : String) : Prop :=
  (getRelayDataBySlot net g v slot 0).2 = none ∨ (getRelayDataBySlot net g v slot 1).2 = none

/-- The entries with the requested slot among the responses of all configured endpoints, in
the order of the endpoint list numbered from `g`, every occurrence of an endpoint counted. -/
def matchingEntries (net : RelayNet) (slot : Nat) (g : Nat) (relayEndpoints : List String) :
    List BidTrace :=
  (relayEndpoints.enumFrom g).flatMap
    (fun p => (relayResponse net slot p.1 p.2).filter (fun b => decide (b.Slot = slot)))

/-- Entries that a goroutine will still append when it runs on. -/
def Task.pending (slot : Nat) : Task → List BidTrace
  | Task.running todo => drainTodo slot todo
  | _ => []

/-- The goroutine is (still) about to return an error. -/
def Task.isFailed : Task → Bool
  | Task.failed _ => true
  | _ => false

/-- Events of attempt number `j + 1` of an ideal retry with initial backoff of `d` seconds: the
first attempt is the call alone, a later one is a sleep of `d * 2 ^ (j - 1)` seconds followed by
the call. -/
def attemptEvents (d : Int) (j : Nat) : List RetryEvent :=
  if j = 0 then [RetryEvent.call 0]
  else [RetryEvent.sleep (d * 2 ^ (j - 1) * Second), RetryEvent.call j]

/-- Events of the first `k` attempts of an ideal retry. -/
def backoffTrace (d : Int) (k : Nat) : List RetryEvent :=
  (List.range k).flatMap (attemptEvents d)

/-- The event is an invocation of the operation. -/
def RetryEvent.isCall : RetryEvent → Bool
  | RetryEvent.call _ => true
  | RetryEvent.sleep _ => false

/-- The event is a sleep. -/
def RetryEvent.isSleep : RetryEvent → Bool
  | RetryEvent.call _ => false
  | RetryEvent.sleep _ => true

/-- An operation that fails at every invocation, for the examples. -/
def demoDown : Nat → Unit × Option GoError := fun _ => ((), some (GoError.msg "down"))

/-- An operation that fails twice and then yields `7`, for the examples. -/
def demoThird : Nat → Nat × Option GoError := fun j =>
  if j < 2 then (0, some (GoError.msg "down")) else (7, none)

/-- The bid trace matches the last transaction, in the sense of the search loop of
`calculateMevBlockReward`: its value is the decimal rendering of the transferred value and its
proposer fee recipient is the recipient. -/
def MatchesLastTx (lastTx : Transaction) (b : BidTrace) : Prop :=
  b.Value = bigString lastTx.Value ∧ lastTx.To = some b.ProposerFeeRecipient

/-- The block-number string that the resolution parses: the one of the beacon block when there
is no bid trace, the one of the first bid trace otherwise. -/
def blockNumberUsed (bidTraces : List BidTrace) (beaconBlock : BeaconBlockResponse) : String :=
  match bidTraces with
  | [] => beaconBlock.BlockNumber
  | first :: _ => first.BlockNumber

/-- Fee of one receipt: effective gas price times gas used (a nil price counted as 0). -/
def Receipt.fee (r : Receipt) : Int := r.EffectiveGasPrice.getD 0 * (r.GasUsed.val : Int)

/-- Example node: every block has base fee 2 and gas used 30, and two receipts; the last
transaction `0xT1` pays 70 to `0xA1`. -/
def demoNode : NativeClient where
  HeaderByNumber := fun _ => Except.ok ⟨some 2, 30⟩
  BlockReceipts := fun _ => Except.ok [⟨some 5, 10, 0, "0xT0"⟩, ⟨some 7, 20, 1, "0xT1"⟩]
  TransactionByHash := fun _ => Except.ok ⟨some "0xA1", 70⟩

/-- Example node like `demoNode`, except that the last transaction creates a contract (it has
no recipient) and carries the value 70. -/
def demoNodeCreation : NativeClient where
  HeaderByNumber := fun _ => Except.ok ⟨some 2, 30⟩
  BlockReceipts := fun _ => Except.ok [⟨some 5, 10, 0, "0xT0"⟩, ⟨some 7, 20, 1, "0xT1"⟩]
  TransactionByHash := fun _ => Except.ok ⟨none, 70⟩

/-- Example node for a block before the London fork: the header has no base fee; one receipt
with effective gas price 5 and gas used 10. -/
def demoNodePreLondon : NativeClient where
  HeaderByNumber := fun _ => Except.ok ⟨none, 10⟩
  BlockReceipts := fun _ => Except.ok [⟨some 5, 10, 0, "0xT0"⟩]
  TransactionByHash := fun _ => Except.ok ⟨some "0xA1", 70⟩

/-- Example beacon block: block 901, proposed with fee recipient `0xF0`. -/
def demoBeacon : BeaconBlockResponse := ⟨"5", "0xF0", "901"⟩

/-- Example beacon block whose fee recipient is the proposer fee recipient of `demoBid5`. -/
def demoBeaconSelf : BeaconBlockResponse := ⟨"5", "0xA1", "900"⟩

/-- A bid trace of slot 5 and one of slot 6, for the examples. -/
def demoBid5 : BidTrace := ⟨5, "70", "0xA1", "900"⟩

/-- See `demoBid5`. -/
def demoBid6 : BidTrace := ⟨6, "80", "0xB2", "901"⟩

/-- Example relays: goroutine 0 gets both bid traces at once, goroutine 1 gets the slot-5 bid
trace at its second attempt, every other goroutine gets an empty answer. -/
def demoNet : RelayNet := fun g _ j =>
  match g, j with
  | 0, _ => RelayReply.decoded [demoBid5, demoBid6]
  | 1, 0 => RelayReply.doFailed (GoError.msg "timeout")
  | 1, _ => RelayReply.decoded [demoBid5]
  | _, _ => RelayReply.decoded []

/-- Example relays of which the one asked by goroutine 1 never answers. -/
def demoNetDown : RelayNet := fun g _ _ =>
  match g with
  | 1 => RelayReply.doFailed (GoError.msg "timeout")
  | _ => RelayReply.decoded [demoBid5]

/-- Example beacon node: head slot 3000000, a sync committee of the validators 7 and 8, and a
validator snapshot that knows both. -/
def demoBeaconNode : BeaconRequester where
  GetBeaconHeaderSlot := Except.ok 3000000
  GetBeaconBlockBySlot := fun _ => Except.ok demoBeacon
  GetSyncCommitteesBySlot := fun _ => Except.ok ["7", "8"]
  GetValidatorsBySlot := fun _ => Except.ok [("7", "0xaa"), ("8", "0xbb")]

/-- Example handler on the example beacon node, execution node and relays. -/
def demoHandler : Handler := ⟨demoBeaconNode, demoNode, ["a", "a", "b"], demoNet, [1, 0, 2]⟩

/-- Example beacon node whose validator snapshot does not know validator 7 of the sync
committee. -/
def demoBeaconStale : BeaconRequester where
  GetBeaconHeaderSlot := Except.ok 3000000
  GetBeaconBlockBySlot := fun _ => Except.ok demoBeacon
  GetSyncCommitteesBySlot := fun _ => Except.ok ["7"]
  GetValidatorsBySlot := fun _ => Except.ok [("8", "0xbb")]

/-- Example beacon node that answers the head-slot query and fails the validator snapshot. -/
def demoBeaconNoSnapshot : BeaconRequester where
  GetBeaconHeaderSlot := Except.ok 3000000
  GetBeaconBlockBySlot := fun _ => Except.ok demoBeacon
  GetSyncCommitteesBySlot := fun _ => Except.ok ["7"]
  GetValidatorsBySlot := fun _ => Except.error (GoError.msg "timeout")

/-- Example beacon node whose head-slot query fails. -/
def demoBeaconDown : BeaconRequester where
  GetBeaconHeaderSlot := Except.error (GoError.msg "timeout")
  GetBeaconBlockBySlot := fun _ => Except.ok demoBeacon
  GetSyncCommitteesBySlot := fun _ => Except.ok ["7"]
  GetValidatorsBySlot := fun _ => Except.ok [("7", "0xaa")]

/-- A second bid trace of slot 5 and block 900, which does not match the last transaction. -/
def demoBid5Other : BidTrace := ⟨5, "99", "0xC3", "900"⟩

/-- A bid trace whose block number is not a decimal integer. -/
def demoBidBadNumber : BidTrace := ⟨5, "70", "0xA1", "0x384"⟩

/-! ## Lemmas on the aggregation -/

theorem retry_two_of_first {α : Type} [Inhabited α] (f : Nat → α × Option GoError)
    (h : (f 0).2 = none) :
    (retry 2 1 f).err = none ∧ (retry 2 1 f).result = (f 0).1 := by
  have h2 : (2 : Int).toNat = 2 := rfl
  simp [retry, h2, retryLoop, h]

theorem retry_two_of_second {α : Type} [Inhabited α] (f : Nat → α × Option GoError)
    (e : GoError) (h0 : (f 0).2 = some e) (h : (f 1).2 = none) :
    (retry 2 1 f).err = none ∧ (retry 2 1 f).result = (f 1).1 := by
  have h2 : (2 : Int).toNat = 2 := rfl
  simp [retry, h2, retryLoop, h0, h]

theorem retry_two_of_both {α : Type} [Inhabited α] (f : Nat → α × Option GoError)
    (e0 e1 : GoError) (h0 : (f 0).2 = some e0) (h1 : (f 1).2 = some e1) :
    (retry 2 1 f).err = some (GoError.wrap e1 "after 2 attempts") := by
  have h2 : (2 : Int).toNat = 2 := rfl
  simp [retry, h2, retryLoop, h0, h1, Wrapf]
  decide

theorem startTask_of_succeeds (net : RelayNet) (slot g : Nat) (v : String)
    (h : RelaySucceeds net slot g v) :
    startTask net slot g v = Task.running (relayResponse net slot g v) := by
  unfold startTask relayResponse
  cases h0 : (getRelayDataBySlot net g v slot 0).2 with
  | none =>
    have := retry_two_of_first (getRelayDataBySlot net g v slot) h0
    simp [this.1, this.2]
  | some e =>
    have h1 : (getRelayDataBySlot net g v slot 1).2 = none := by
      rcases h with h | h
      · rw [h0] at h; cases h
      · exact h
    have := retry_two_of_second (getRelayDataBySlot net g v slot) e h0 h1
    simp [this.1, this.2]

theorem startTask_of_fails (net : RelayNet) (slot g : Nat) (v : String)
    (h : ¬ RelaySucceeds net slot g v) :
    (startTask net slot g v).isFailed = true := by
  unfold RelaySucceeds at h
  push_neg at h
  obtain ⟨e0, h0⟩ := Option.ne_none_iff_exists'.mp h.1
  obtain ⟨e1, h1⟩ := Option.ne_none_iff_exists'.mp h.2
  have := retry_two_of_both (getRelayDataBySlot net g v slot) e0 e1 h0 h1
  simp [startTask, this, Task.isFailed]

theorem drainTodo_eq_filter (slot : Nat) (l : List BidTrace) :
    drainTodo slot l = l.filter (fun b => decide (b.Slot = slot)) := by
  induction l with
  | nil => rfl
  | cons b rest ih =>
    by_cases h : b.Slot = slot <;> simp [drainTodo, h, ih]

theorem drainTodo_slot (slot : Nat) (l : List BidTrace) :
    ∀ b ∈ drainTodo slot l, b.Slot = slot := by
  intro b hb
  rw [drainTodo_eq_filter] at hb
  simpa using (List.mem_filter.mp hb).2

theorem stepTask_slot (slot : Nat) (t : Task) :
    ∀ b ∈ (stepTask slot t).2.1, b.Slot = slot := by
  intro b hb
  match t with
  | Task.failed e => simp [stepTask] at hb
  | Task.running [] => simp [stepTask] at hb
  | Task.done => simp [stepTask] at hb
  | Task.running (x :: rest) =>
    by_cases h : x.Slot = slot
    · simp [stepTask, h] at hb
      rw [hb]; exact h
    · simp [stepTask, h] at hb

theorem stepTasks_slot (slot : Nat) (g : Nat) (ts : List Task) :
    ∀ b ∈ (stepTasks slot g ts).2.1, b.Slot = slot := by
  induction ts generalizing g with
  | nil => intro b hb; simp [stepTasks] at hb
  | cons t ts ih =>
    cases g with
    | zero => simpa [stepTasks] using stepTask_slot slot t
    | succ g => simpa [stepTasks] using ih g

theorem drainTasks_slot (slot : Nat) (ts : List Task) (result : List BidTrace)
    (err : Option GoError) (h : ∀ b ∈ result, b.Slot = slot) :
    ∀ b ∈ (drainTasks slot ts result err).1, b.Slot = slot := by
  induction ts generalizing result err with
  | nil => simpa [drainTasks] using h
  | cons t ts ih =>
    match t with
    | Task.failed e => simpa [drainTasks] using ih result _ h
    | Task.done => simpa [drainTasks] using ih result _ h
    | Task.running todo =>
      simp only [drainTasks]
      apply ih
      intro b hb
      rcases List.mem_append.mp hb with hb | hb
      · exact h b hb
      · exact drainTodo_slot slot todo b hb

theorem foldl_step_slot (slot : Nat) (sched : List Nat) (st : Group)
    (h : ∀ b ∈ st.result, b.Slot = slot) :
    ∀ b ∈ (sched.foldl (Group.step slot) st).result, b.Slot = slot := by
  induction sched generalizing st with
  | nil => simpa using h
  | cons g gs ih =>
    simp only [List.foldl_cons]
    apply ih
    intro b hb
    simp only [Group.step] at hb
    rcases List.mem_append.mp hb with hb | hb
    · exact h b hb
    · exact stepTasks_slot slot g st.tasks b hb

theorem stepTask_ok (slot : Nat) (t : Task) (h : t.isFailed = false) :
    (stepTask slot t).2.2 = none ∧ (stepTask slot t).1.isFailed = false ∧
      (stepTask slot t).2.1 ++ (stepTask slot t).1.pending slot = t.pending slot := by
  match t with
  | Task.failed e => simp [Task.isFailed] at h
  | Task.running [] => simp [stepTask, Task.isFailed, Task.pending, drainTodo]
  | Task.done => simp [stepTask, Task.isFailed, Task.pending]
  | Task.running (x :: rest) => simp [stepTask, Task.isFailed, Task.pending, drainTodo]

theorem stepTasks_ok (slot : Nat) (g : Nat) (ts : List Task)
    (h : ∀ t ∈ ts, t.isFailed = false) :
    (stepTasks slot g ts).2.2 = none ∧ (∀ t ∈ (stepTasks slot g ts).1, t.isFailed = false) ∧
      ((stepTasks slot g ts).2.1 ++ (stepTasks slot g ts).1.flatMap (Task.pending slot)).Perm
        (ts.flatMap (Task.pending slot)) := by
  induction ts generalizing g with
  | nil => simp [stepTasks]
  | cons t ts ih =>
    have ht := h t (List.mem_cons_self t ts)
    have hts : ∀ u ∈ ts, u.isFailed = false := fun u hu => h u (List.mem_cons_of_mem t hu)
    cases g with
    | zero =>
      obtain ⟨h1, h2, h3⟩ := stepTask_ok slot t ht
      refine ⟨by simpa [stepTasks] using h1, ?_, ?_⟩
      · intro u hu
        simp only [stepTasks, List.mem_cons] at hu
        rcases hu with hu | hu
        · rw [hu]; exact h2
        · exact hts u hu
      · simp only [stepTasks, List.flatMap_cons]
        rw [← List.append_assoc, h3]
    | succ g =>
      obtain ⟨h1, h2, h3⟩ := ih g hts
      refine ⟨by simpa [stepTasks] using h1, ?_, ?_⟩
      · intro u hu
        simp only [stepTasks, List.mem_cons] at hu
        rcases hu with hu | hu
        · rw [hu]; exact ht
        · exact h2 u hu
      · simp only [stepTasks, List.flatMap_cons]
        exact (List.perm_append_comm_assoc _ _ _).trans (List.Perm.append_left _ h3)

theorem foldl_step_ok (slot : Nat) (sched : List Nat) (st : Group) (L : List BidTrace)
    (herr : st.err = none) (hts : ∀ t ∈ st.tasks, t.isFailed = false)
    (hperm : (st.result ++ st.tasks.flatMap (Task.pending slot)).Perm L) :
    (sched.foldl (Group.step slot) st).err = none ∧
      (∀ t ∈ (sched.foldl (Group.step slot) st).tasks, t.isFailed = false) ∧
      ((sched.foldl (Group.step slot) st).result ++
        (sched.foldl (Group.step slot) st).tasks.flatMap (Task.pending slot)).Perm L := by
  induction sched generalizing st with
  | nil => exact ⟨herr, hts, hperm⟩
  | cons g gs ih =>
    simp only [List.foldl_cons]
    obtain ⟨h1, h2, h3⟩ := stepTasks_ok slot g st.tasks hts
    apply ih
    · simp [Group.step, herr, h1]
    · simpa [Group.step] using h2
    · simp only [Group.step, List.append_assoc]
      exact (List.Perm.append_left _ h3).trans hperm

theorem drainTasks_ok (slot : Nat) (ts : List Task) (result : List BidTrace)
    (err : Option GoError) (h : ∀ t ∈ ts, t.isFailed = false) :
    drainTasks slot ts result err = (result ++ ts.flatMap (Task.pending slot), err) := by
  induction ts generalizing result with
  | nil => simp [drainTasks]
  | cons t ts ih =>
    have ht := h t (List.mem_cons_self t ts)
    have hts : ∀ u ∈ ts, u.isFailed = false := fun u hu => h u (List.mem_cons_of_mem t hu)
    match t with
    | Task.failed e => simp [Task.isFailed] at ht
    | Task.done => simp [drainTasks, ih _ hts, Task.pending]
    | Task.running todo => simp [drainTasks, ih _ hts, Task.pending]

theorem startTasks_ok (net : RelayNet) (slot : Nat) (g : Nat) (vs : List String)
    (h : ∀ p ∈ vs.enumFrom g, RelaySucceeds net slot p.1 p.2) :
    (∀ t ∈ startTasks net slot g vs, t.isFailed = false) ∧
      (startTasks net slot g vs).flatMap (Task.pending slot) = matchingEntries net slot g vs := by
  induction vs generalizing g with
  | nil => simp [startTasks, matchingEntries]
  | cons v vs ih =>
    have hv : RelaySucceeds net slot g v := h (g, v) (by simp [List.enumFrom])
    have hvs : ∀ p ∈ vs.enumFrom (g + 1), RelaySucceeds net slot p.1 p.2 :=
      fun p hp => h p (by simp only [List.enumFrom, List.mem_cons]; exact Or.inr hp)
    obtain ⟨h1, h2⟩ := ih (g + 1) hvs
    have hst := startTask_of_succeeds net slot g v hv
    constructor
    · intro t ht
      simp only [startTasks, List.mem_cons] at ht
      rcases ht with ht | ht
      · rw [ht, hst]; rfl
      · exact h1 t ht
    · simp only [startTasks, List.flatMap_cons, h2, hst, Task.pending, drainTodo_eq_filter]
      simp [matchingEntries, List.enumFrom]

theorem stepTasks_failed (slot : Nat) (g : Nat) (ts : List Task)
    (h : ∃ t ∈ ts, t.isFailed = true) :
    (∃ t ∈ (stepTasks slot g ts).1, t.isFailed = true) ∨ (stepTasks slot g ts).2.2 ≠ none := by
  induction ts generalizing g with
  | nil => simp at h
  | cons t ts ih =>
    obtain ⟨u, hu, hf⟩ := h
    cases g with
    | zero =>
      rcases List.mem_cons.mp hu with hu | hu
      · right
        rw [hu] at hf
        match t with
        | Task.failed e => simp [stepTasks, stepTask]
        | Task.running todo => simp [Task.isFailed] at hf
        | Task.done => simp [Task.isFailed] at hf
      · left
        exact ⟨u, by simp [stepTasks, hu], hf⟩
    | succ g =>
      rcases List.mem_cons.mp hu with hu | hu
      · left
        exact ⟨u, by simp [stepTasks, hu], hf⟩
      · rcases ih g ⟨u, hu, hf⟩ with ⟨w, hw, hwf⟩ | h2
        · left
          exact ⟨w, by simp [stepTasks, hw], hwf⟩
        · right
          simpa [stepTasks] using h2

theorem foldl_step_failed (slot : Nat) (sched : List Nat) (st : Group)
    (h : (∃ t ∈ st.tasks, t.isFailed = true) ∨ st.err ≠ none) :
    (∃ t ∈ (sched.foldl (Group.step slot) st).tasks, t.isFailed = true) ∨
      (sched.foldl (Group.step slot) st).err ≠ none := by
  induction sched generalizing st with
  | nil => exact h
  | cons g gs ih =>
    simp only [List.foldl_cons]
    apply ih
    rcases h with h | h
    · rcases stepTasks_failed slot g st.tasks h with h2 | h2
      · left; simpa [Group.step] using h2
      · right
        cases he : st.err with
        | none => simpa [Group.step, he] using h2
        | some e => simp [Group.step, he]
    · right
      cases he : st.err with
      | none => exact absurd he h
      | some e => simp [Group.step, he]

theorem drainTasks_failed (slot : Nat) (ts : List Task) (result : List BidTrace)
    (err : Option GoError) (h : (∃ t ∈ ts, t.isFailed = true) ∨ err ≠ none) :
    (drainTasks slot ts result err).2 ≠ none := by
  induction ts generalizing result err with
  | nil =>
    rcases h with h | h
    · simp at h
    · simpa [drainTasks] using h
  | cons t ts ih =>
    match t with
    | Task.failed e =>
      simp only [drainTasks]
      apply ih
      right
      cases err <;> simp
    | Task.done =>
      simp only [drainTasks]
      apply ih
      rcases h with ⟨u, hu, hf⟩ | h
      · rcases List.mem_cons.mp hu with hu | hu
        · rw [hu] at hf; simp [Task.isFailed] at hf
        · exact Or.inl ⟨u, hu, hf⟩
      · exact Or.inr h
    | Task.running todo =>
      simp only [drainTasks]
      apply ih
      rcases h with ⟨u, hu, hf⟩ | h
      · rcases List.mem_cons.mp hu with hu | hu
        · rw [hu] at hf; simp [Task.isFailed] at hf
        · exact Or.inl ⟨u, hu, hf⟩
      · exact Or.inr h

theorem startTasks_failed (net : RelayNet) (slot : Nat) (g : Nat) (vs : List String)
    (h : ∃ p ∈ vs.enumFrom g, ¬ RelaySucceeds net slot p.1 p.2) :
    ∃ t ∈ startTasks net slot g vs, t.isFailed = true := by
  induction vs generalizing g with
  | nil => simp at h
  | cons v vs ih =>
    obtain ⟨p, hp, hf⟩ := h
    simp only [List.enumFrom, List.mem_cons] at hp
    rcases hp with hp | hp
    · subst hp
      exact ⟨startTask net slot g v, by simp [startTasks], startTask_of_fails net slot g v hf⟩
    · obtain ⟨t, ht, htf⟩ := ih (g + 1) ⟨p, hp, hf⟩
      exact ⟨t, by simp [startTasks, ht], htf⟩

/-! ## The aggregation: slot filter, completeness, failure -/

/-- C1: whatever the endpoint list, the relay replies and the interleaving of the goroutines,
every bid trace in the list returned by `GetRelayDatasBySlot` has the requested slot. -/
theorem GetRelayDatasBySlot_slot (relayEndpoints : List String) (net : RelayNet) (slot : Nat)
    (sched : List Nat) :
    ∀ b ∈ (GetRelayDatasBySlot relayEndpoints net slot sched).1, b.Slot = slot := by
  intro b hb
  unfold GetRelayDatasBySlot at hb
  simp only at hb
  split at hb
  · simp at hb
  · exact drainTasks_slot slot _ _ _
      (foldl_step_slot slot sched ⟨startTasks net slot 0 relayEndpoints, [], none⟩
        (by simp)) b hb

/-- C1, example: three goroutines (one endpoint twice), the slot-6 entry is filtered out and
the slot-5 entries returned have slot 5. -/
theorem GetRelayDatasBySlot_slot_witness :
    demoBid5 ∈ (GetRelayDatasBySlot ["a", "a", "b"] demoNet 5 [1, 0, 2]).1 ∧
      demoBid5.Slot = 5 :=
  have h : demoBid5 ∈ (GetRelayDatasBySlot ["a", "a", "b"] demoNet 5 [1, 0, 2]).1 := by
    decide
  ⟨h, GetRelayDatasBySlot_slot ["a", "a", "b"] demoNet 5 [1, 0, 2] demoBid5 h⟩

/-- C6: when the query of every configured endpoint occurrence succeeds within its two
attempts, the returned list is a permutation of the slot-matching entries of all the responses
(one response per occurrence of an endpoint in the configured list), so it has as many entries
and contains each of them. -/
theorem GetRelayDatasBySlot_perm (relayEndpoints : List String) (net : RelayNet) (slot : Nat)
    (sched : List Nat)
    (h : ∀ p ∈ relayEndpoints.enumFrom 0, RelaySucceeds net slot p.1 p.2) :
    (GetRelayDatasBySlot relayEndpoints net slot sched).1.Perm
        (matchingEntries net slot 0 relayEndpoints) ∧
      (GetRelayDatasBySlot relayEndpoints net slot sched).1.length =
        (matchingEntries net slot 0 relayEndpoints).length ∧
      ∀ b ∈ matchingEntries net slot 0 relayEndpoints,
        b ∈ (GetRelayDatasBySlot relayEndpoints net slot sched).1 := by
  obtain ⟨h1, h2⟩ := startTasks_ok net slot 0 relayEndpoints h
  obtain ⟨g1, g2, g3⟩ := foldl_step_ok slot sched
    ⟨startTasks net slot 0 relayEndpoints, [], none⟩ (matchingEntries net slot 0 relayEndpoints)
    rfl h1 (by simp [h2])
  have hperm : (GetRelayDatasBySlot relayEndpoints net slot sched).1.Perm
      (matchingEntries net slot 0 relayEndpoints) := by
    unfold GetRelayDatasBySlot
    simp only [drainTasks_ok slot _ _ _ g2, g1]
    exact g3
  exact ⟨hperm, hperm.length_eq, fun b hb => hperm.symm.subset hb⟩

/-- C6, example: the endpoint list has a duplicate, goroutine 1 needs its second attempt, and
the two slot-5 entries are both returned. -/
theorem GetRelayDatasBySlot_perm_witness :
    (GetRelayDatasBySlot ["a", "a", "b"] demoNet 5 [1, 0, 2]).1.length = 2 ∧
      (GetRelayDatasBySlot ["a", "a", "b"] demoNet 5 [1, 0, 2]).1.Perm
        (matchingEntries demoNet 5 0 ["a", "a", "b"]) :=
  ⟨by decide,
    (GetRelayDatasBySlot_perm ["a", "a", "b"] demoNet 5 [1, 0, 2] (by
      intro p hp
      simp only [List.enumFrom, List.mem_cons, List.mem_nil_iff, or_false] at hp
      rcases hp with hp | hp | hp <;> subst hp <;>
        simp [RelaySucceeds, getRelayDataBySlot, demoNet, Wrapf])).1⟩

/-- C7: if both attempts fail for some occurrence of a configured endpoint, the aggregation
returns a non-nil error and a nil list, whatever the other relays answered and whatever the
interleaving; if every occurrence succeeds within its two attempts, the error is nil. -/
theorem GetRelayDatasBySlot_error (relayEndpoints : List String) (net : RelayNet) (slot : Nat)
    (sched : List Nat) :
    ((∃ p ∈ relayEndpoints.enumFrom 0,
        (getRelayDataBySlot net p.1 p.2 slot 0).2 ≠ none ∧
          (getRelayDataBySlot net p.1 p.2 slot 1).2 ≠ none) →
      (GetRelayDatasBySlot relayEndpoints net slot sched).2 ≠ none ∧
        (GetRelayDatasBySlot relayEndpoints net slot sched).1 = []) ∧
    ((∀ p ∈ relayEndpoints.enumFrom 0,
        (getRelayDataBySlot net p.1 p.2 slot 0).2 = none ∨
          (getRelayDataBySlot net p.1 p.2 slot 1).2 = none) →
      (GetRelayDatasBySlot relayEndpoints net slot sched).2 = none) := by
  constructor
  · rintro ⟨p, hp, hf0, hf1⟩
    have hstart := startTasks_failed net slot 0 relayEndpoints
      ⟨p, hp, by unfold RelaySucceeds; push_neg; exact ⟨hf0, hf1⟩⟩
    have hrun := foldl_step_failed slot sched
      ⟨startTasks net slot 0 relayEndpoints, [], none⟩ (Or.inl hstart)
    have hfin := drainTasks_failed slot _
      (sched.foldl (Group.step slot) ⟨startTasks net slot 0 relayEndpoints, [], none⟩).result
      _ hrun
    unfold GetRelayDatasBySlot
    simp only
    split
    · simp
    · next hnone => exact absurd hnone hfin
  · intro h
    obtain ⟨h1, _⟩ := startTasks_ok net slot 0 relayEndpoints h
    obtain ⟨g1, g2, _⟩ := foldl_step_ok slot sched
      ⟨startTasks net slot 0 relayEndpoints, [], none⟩
      (([] : List BidTrace) ++ (startTasks net slot 0 relayEndpoints).flatMap (Task.pending slot))
      rfl h1 (List.Perm.refl _)
    unfold GetRelayDatasBySlot
    simp only [drainTasks_ok slot _ _ _ g2, g1]

/-- C7, example: the relay asked by goroutine 1 fails twice, and the aggregation returns an
error and no entry although the two other goroutines got a matching bid trace; with relays
that all answer within two attempts the error is nil. -/
theorem GetRelayDatasBySlot_error_witness :
    ((GetRelayDatasBySlot ["a", "b", "c"] demoNetDown 5 [0, 0, 2, 1]).2 ≠ none ∧
        (GetRelayDatasBySlot ["a", "b", "c"] demoNetDown 5 [0, 0, 2, 1]).1 = []) ∧
      (GetRelayDatasBySlot ["a", "a", "b"] demoNet 5 [1, 0, 2]).2 = none :=
  ⟨(GetRelayDatasBySlot_error ["a", "b", "c"] demoNetDown 5 [0, 0, 2, 1]).1
      ⟨(1, "b"), by simp [List.enumFrom], by simp [getRelayDataBySlot, demoNetDown, Wrapf],
        by simp [getRelayDataBySlot, demoNetDown, Wrapf]⟩,
    (GetRelayDatasBySlot_error ["a", "a", "b"] demoNet 5 [1, 0, 2]).2 (by
      intro p hp
      simp only [List.enumFrom, List.mem_cons, List.mem_nil_iff, or_false] at hp
      rcases hp with hp | hp | hp <;> subst hp <;>
        simp [getRelayDataBySlot, demoNet, Wrapf])⟩

/-! ## The retry policy -/

theorem wrapInt64_of_range (x : Int) (h1 : -2 ^ 63 ≤ x) (h2 : x < 2 ^ 63) :
    wrapInt64 x = x := by
  unfold wrapInt64
  omega

theorem wrapInt64_modEq (x : Int) : Int.ModEq (2 ^ 64) (wrapInt64 x) x := by
  unfold wrapInt64
  have h : Int.ModEq (2 ^ 64) ((x + 2 ^ 63) % 2 ^ 64) (x + 2 ^ 63) := Int.mod_modEq _ _
  have h3 := h.sub_right (2 ^ 63)
  rw [add_sub_cancel_right] at h3
  exact h3

theorem wrapInt64_congr (a b : Int) (h : Int.ModEq (2 ^ 64) a b) :
    wrapInt64 a = wrapInt64 b := by
  unfold wrapInt64
  have h2 : (a + 2 ^ 63) % 2 ^ 64 = (b + 2 ^ 63) % 2 ^ 64 := h.add_right (2 ^ 63)
  rw [h2]

/-- The sleep of iteration `i` has the ideal length when the backoff variable is right modulo
`2 ^ 64` and the ideal length fits a `time.Duration`. -/
theorem sleep_exact (d s : Int) (i : Nat) (hs : Int.ModEq (2 ^ 64) s (d * 2 ^ (i - 1)))
    (h1 : -2 ^ 63 ≤ d * 2 ^ (i - 1) * Second) (h2 : d * 2 ^ (i - 1) * Second < 2 ^ 63) :
    wrapInt64 (s * Second) = d * 2 ^ (i - 1) * Second := by
  rw [wrapInt64_congr _ _ (hs.mul_right Second)]
  exact wrapInt64_of_range _ h1 h2

/-- The backoff variable stays right modulo `2 ^ 64` from one iteration to the next. -/
theorem sleep_next (d s : Int) (i : Nat) (hs : Int.ModEq (2 ^ 64) s (d * 2 ^ (i - 1))) :
    Int.ModEq (2 ^ 64) (if 0 < i then wrapInt64 (s * 2) else s) (d * 2 ^ (i + 1 - 1)) := by
  rcases Nat.eq_zero_or_pos i with h | h
  · subst h
    simpa using hs
  · obtain ⟨m, rfl⟩ : ∃ m, i = m + 1 := ⟨i - 1, by omega⟩
    simp only [Nat.zero_lt_succ, if_true, Nat.add_sub_cancel] at hs ⊢
    have h3 : d * 2 ^ (m + 1) = d * 2 ^ m * 2 := by ring
    rw [h3]
    exact (wrapInt64_modEq _).trans (hs.mul_right 2)

theorem attemptEvents_loop (d s : Int) (i : Nat) (hs : Int.ModEq (2 ^ 64) s (d * 2 ^ (i - 1)))
    (hr : 0 < i → -2 ^ 63 ≤ d * 2 ^ (i - 1) * Second ∧ d * 2 ^ (i - 1) * Second < 2 ^ 63)
    (rest : List RetryEvent) :
    (if 0 < i then [RetryEvent.sleep (wrapInt64 (s * Second))] else []) ++
      RetryEvent.call i :: rest = attemptEvents d i ++ rest := by
  rcases Nat.eq_zero_or_pos i with h | h
  · subst h
    simp [attemptEvents]
  · have hne : i ≠ 0 := by omega
    simp [attemptEvents, h, hne, sleep_exact d s i hs (hr h).1 (hr h).2]

/-- The loop of `retry` from iteration `i` on, when invocation `k` is the first to succeed. -/
theorem retryLoop_success {α : Type} (attempts d : Int) (f : Nat → α × Option GoError)
    (k : Nat) (hk : (f k).2 = none) :
    ∀ (left i : Nat) (s : Int) (result : α) (err : Option GoError),
      i ≤ k → k < i + left → Int.ModEq (2 ^ 64) s (d * 2 ^ (i - 1)) →
      (∀ m, i ≤ m → m < k → (f m).2 ≠ none) →
      (∀ j, 0 < j → j ≤ k →
        -2 ^ 63 ≤ d * 2 ^ (j - 1) * Second ∧ d * 2 ^ (j - 1) * Second < 2 ^ 63) →
      (retryLoop attempts f left i s result err).result = (f k).1 ∧
        (retryLoop attempts f left i s result err).err = none ∧
        (retryLoop attempts f left i s result err).trace =
          (List.range' i (k + 1 - i)).flatMap (attemptEvents d) := by
  intro left
  induction left with
  | zero => intro i s result err h1 h2; omega
  | succ left ih =>
    intro i s result err h1 h2 hs hfail hr
    have hev := attemptEvents_loop d s i hs (fun hi => hr i hi h1)
    rcases Nat.eq_or_lt_of_le h1 with h | h
    · subst h
      have hlen : i + 1 - i = 1 := by omega
      have := hev []
      simp only [List.append_nil] at this
      simp [retryLoop, hk, hlen, this]
    · obtain ⟨e, he⟩ := Option.ne_none_iff_exists'.mp (hfail i (le_refl i) h)
      obtain ⟨g1, g2, g3⟩ := ih (i + 1) (if 0 < i then wrapInt64 (s * 2) else s) (f i).1
        (some e) h (by omega) (sleep_next d s i hs) (fun m hm hmk => hfail m (by omega) hmk) hr
      have hlen : k + 1 - i = (k + 1 - (i + 1)) + 1 := by omega
      simp only [retryLoop, he, g1, g2, g3, hlen, List.range'_succ, List.flatMap_cons]
      exact ⟨trivial, trivial, hev _⟩

/-- The loop of `retry` from iteration `i` on, when no invocation succeeds. -/
theorem retryLoop_failure {α : Type} (attempts d : Int) (f : Nat → α × Option GoError) :
    ∀ (left i : Nat) (s : Int) (result : α) (err : Option GoError),
      Int.ModEq (2 ^ 64) s (d * 2 ^ (i - 1)) →
      (∀ m, i ≤ m → m < i + left → (f m).2 ≠ none) →
      (∀ j, 0 < j → j < i + left →
        -2 ^ 63 ≤ d * 2 ^ (j - 1) * Second ∧ d * 2 ^ (j - 1) * Second < 2 ^ 63) →
      (retryLoop attempts f left i s result err).result =
          (if left = 0 then result else (f (i + left - 1)).1) ∧
        (retryLoop attempts f left i s result err).err =
          Wrapf (if left = 0 then err else (f (i + left - 1)).2)
            ("after " ++ toString attempts ++ " attempts") ∧
        (retryLoop attempts f left i s result err).trace =
          (List.range' i left).flatMap (attemptEvents d) := by
  intro left
  induction left with
  | zero => intro i s result err _ _ _; simp [retryLoop]
  | succ left ih =>
    intro i s result err hs hfail hr
    have hev := attemptEvents_loop d s i hs (fun hi => hr i hi (by omega))
    obtain ⟨e, he⟩ := Option.ne_none_iff_exists'.mp (hfail i (le_refl i) (by omega))
    obtain ⟨g1, g2, g3⟩ := ih (i + 1) (if 0 < i then wrapInt64 (s * 2) else s) (f i).1
      (some e) (sleep_next d s i hs) (fun m hm hml => hfail m (by omega) (by omega))
      (fun j hj hjl => hr j hj (by omega))
    have hidx : i + 1 + left - 1 = i + left := by omega
    have hidx2 : i + (left + 1) - 1 = i + left := by omega
    simp only [retryLoop, he, g1, g2, g3, hidx, hidx2, List.range'_succ, List.flatMap_cons,
      Nat.succ_ne_zero, if_false]
    refine ⟨?_, ?_, hev _⟩
    · rcases Nat.eq_zero_or_pos left with h | h
      · subst h; simp
      · have : left ≠ 0 := by omega
        simp [this]
    · rcases Nat.eq_zero_or_pos left with h | h
      · subst h; simp [he]
      · have : left ≠ 0 := by omega
        simp [this]

theorem backoffTrace_counts (d : Int) (k : Nat) :
    (backoffTrace d k).countP RetryEvent.isCall = k ∧
      (backoffTrace d k).countP RetryEvent.isSleep = k - 1 := by
  induction k with
  | zero => simp [backoffTrace]
  | succ k ih =>
    unfold backoffTrace at ih ⊢
    rw [List.range_succ, List.flatMap_append, List.countP_append, List.countP_append, ih.1, ih.2]
    rcases Nat.eq_zero_or_pos k with h | h
    · subst h
      simp [attemptEvents, RetryEvent.isCall, RetryEvent.isSleep]
    · have hne : k ≠ 0 := by omega
      simp [attemptEvents, hne, RetryEvent.isCall, RetryEvent.isSleep]
      omega

/-- C8, as stated, fails: with an initial backoff of `10 ^ 10` seconds the `time.Duration`
computed before the second attempt overflows, so `time.Sleep` is called with a negative
duration (and returns at once) instead of sleeping `10 ^ 10` seconds. -/
theorem retry_backoff_overflow :
    (retry 2 10000000000 demoDown).trace =
        [RetryEvent.call 0, RetryEvent.sleep (-8446744073709551616), RetryEvent.call 1] ∧
      (retry 2 10000000000 demoDown).trace ≠ backoffTrace 10000000000 2 := by
  decide

/-- C8 (amended): for every attempt budget `N ≥ 1`, initial backoff `d` and operation `f` such
that every backoff `d * 2 ^ (j - 2)` seconds, `2 ≤ j ≤ N`, fits a `time.Duration` (an `int64`
number of nanoseconds): `retry` invokes `f` for attempt 1 without a sleep and sleeps exactly
`d * 2 ^ (j - 2)` seconds before attempt `j ≥ 2`; if attempt `k ≤ N` is the first to succeed it
returns that result and a nil error after exactly `k` calls and `k - 1` sleeps; if none of the
`N` attempts succeeds it makes exactly `N` calls and `N - 1` sleeps and returns the error of
the last attempt wrapped with the message "after N attempts". -/
theorem retry_backoff {α : Type} [Inhabited α] (N : Nat) (d : Int)
    (f : Nat → α × Option GoError) (hN : 1 ≤ N)
    (hr : ∀ j, 2 ≤ j → j ≤ N →
      -2 ^ 63 ≤ d * 2 ^ (j - 2) * Second ∧ d * 2 ^ (j - 2) * Second < 2 ^ 63) :
    (∀ k, 1 ≤ k → k ≤ N → (∀ m, m + 1 < k → (f m).2 ≠ none) → (f (k - 1)).2 = none →
      (retry (N : Int) d f).result = (f (k - 1)).1 ∧
        (retry (N : Int) d f).err = none ∧
        (retry (N : Int) d f).trace = backoffTrace d k ∧
        (retry (N : Int) d f).trace.countP RetryEvent.isCall = k ∧
        (retry (N : Int) d f).trace.countP RetryEvent.isSleep = k - 1) ∧
    ((∀ m, m < N → (f m).2 ≠ none) →
      (retry (N : Int) d f).result = (f (N - 1)).1 ∧
        (∃ e, (f (N - 1)).2 = some e ∧
          (retry (N : Int) d f).err =
            some (GoError.wrap e ("after " ++ toString N ++ " attempts"))) ∧
        (retry (N : Int) d f).trace = backoffTrace d N ∧
        (retry (N : Int) d f).trace.countP RetryEvent.isCall = N ∧
        (retry (N : Int) d f).trace.countP RetryEvent.isSleep = N - 1) := by
  have hs : Int.ModEq (2 ^ 64) d (d * 2 ^ (0 - 1)) := by simp
  have hr0 : ∀ j, 0 < j → j < N →
      -2 ^ 63 ≤ d * 2 ^ (j - 1) * Second ∧ d * 2 ^ (j - 1) * Second < 2 ^ 63 := by
    intro j h1 h2
    have := hr (j + 1) (by omega) (by omega)
    simpa using this
  have hmsg : toString (N : Int) = toString N := rfl
  constructor
  · intro k hk1 hk2 hfail hok
    obtain ⟨g1, g2, g3⟩ := retryLoop_success (N : Int) d f (k - 1) hok N 0 d default none
      (Nat.zero_le _) (by omega) hs (fun m _ hm => hfail m (by omega))
      (fun j h1 h2 => hr0 j h1 (by omega))
    have hlen : k - 1 + 1 - 0 = k := by omega
    rw [hlen, ← List.range_eq_range'] at g3
    have ht : (retry (N : Int) d f).trace = backoffTrace d k := by
      simpa [retry, backoffTrace] using g3
    refine ⟨by simpa [retry] using g1, by simpa [retry] using g2, ht, ?_, ?_⟩
    · rw [ht]; exact (backoffTrace_counts d k).1
    · rw [ht]; exact (backoffTrace_counts d k).2
  · intro hfail
    obtain ⟨g1, g2, g3⟩ := retryLoop_failure (N : Int) d f N 0 d default none hs
      (fun m _ hm => hfail m (by omega)) (fun j h1 h2 => hr0 j h1 (by omega))
    have hN0 : N ≠ 0 := by omega
    simp only [hN0, if_false, Nat.zero_add, hmsg] at g1 g2
    rw [← List.range_eq_range'] at g3
    have ht : (retry (N : Int) d f).trace = backoffTrace d N := by
      simpa [retry, backoffTrace] using g3
    obtain ⟨e, he⟩ := Option.ne_none_iff_exists'.mp (hfail (N - 1) (by omega))
    refine ⟨by simpa [retry] using g1, ⟨e, he, ?_⟩, ht, ?_, ?_⟩
    · rw [he] at g2
      simpa [retry, Wrapf] using g2
    · rw [ht]; exact (backoffTrace_counts d N).1
    · rw [ht]; exact (backoffTrace_counts d N).2

/-- C8 (amended), example: budget 3, backoff 1 second, an operation that succeeds at its third
invocation: three calls, sleeps of 1 and 2 seconds, result 7. -/
theorem retry_backoff_witness :
    (retry 3 1 demoThird).result = 7 ∧ (retry 3 1 demoThird).err = none ∧
      (retry 3 1 demoThird).trace =
        [RetryEvent.call 0, RetryEvent.sleep 1000000000, RetryEvent.call 1,
          RetryEvent.sleep 2000000000, RetryEvent.call 2] ∧
      (retry 3 1 demoThird).trace.countP RetryEvent.isCall = 3 ∧
      (retry 3 1 demoThird).trace.countP RetryEvent.isSleep = 2 :=
  (retry_backoff 3 1 demoThird (by decide) (by
    intro j h1 h2
    have h3 : j = 2 ∨ j = 3 := by omega
    rcases h3 with h3 | h3 <;> subst h3 <;> decide)).1 3 (by decide) (by decide) (by
    intro m hm
    have h3 : m = 0 ∨ m = 1 := by omega
    rcases h3 with h3 | h3 <;> subst h3 <;> decide) (by decide)

/-! ## Decimal strings -/

theorem digitVal_digitChar (k : Nat) (h : k < 10) : digitVal (Nat.digitChar k) = some k := by
  interval_cases k <;> decide

theorem scanDigits_toDigitsCore (fuel : Nat) :
    ∀ (n : Nat) (ds : List Char), n < fuel →
      scanDigits (Nat.toDigitsCore 10 fuel n ds) 0 = scanDigits ds n := by
  induction fuel with
  | zero => intro n ds h; omega
  | succ fuel ih =>
    intro n ds h
    have hd := digitVal_digitChar (n % 10) (Nat.mod_lt n (by decide))
    by_cases h0 : n / 10 = 0
    · have hn : n % 10 = n := by omega
      rw [hn] at hd
      simp [Nat.toDigitsCore, h0, scanDigits, hd, hn]
    · have hlt : n / 10 < fuel := by omega
      have hn : n / 10 * 10 + n % 10 = n := by omega
      simp [Nat.toDigitsCore, h0, ih (n / 10) _ hlt, scanDigits, hd, hn]

theorem toDigitsCore_ne_nil (fuel : Nat) :
    ∀ (n : Nat) (ds : List Char), ds ≠ [] ∨ 0 < fuel → Nat.toDigitsCore 10 fuel n ds ≠ [] := by
  induction fuel with
  | zero =>
    intro n ds h
    rcases h with h | h
    · simpa [Nat.toDigitsCore] using h
    · omega
  | succ fuel ih =>
    intro n ds _
    by_cases h0 : n / 10 = 0
    · simp [Nat.toDigitsCore, h0]
    · simp only [Nat.toDigitsCore, h0, if_false]
      exact ih _ _ (Or.inl (by simp))

theorem scanNat_toDigits (n : Nat) : scanNat (Nat.toDigits 10 n) = some n := by
  have h1 : scanDigits (Nat.toDigits 10 n) 0 = some n := by
    simpa [Nat.toDigits, scanDigits] using scanDigits_toDigitsCore (n + 1) n [] (by omega)
  have h2 : Nat.toDigits 10 n ≠ [] := toDigitsCore_ne_nil (n + 1) n [] (Or.inr (by omega))
  cases hl : Nat.toDigits 10 n with
  | nil => exact absurd hl h2
  | cons c cs => rw [hl] at h1; simpa [scanNat] using h1

theorem toDigits_head (n : Nat) :
    ∃ c cs, Nat.toDigits 10 n = c :: cs ∧ c ≠ '-' ∧ c ≠ '+' := by
  have h1 := scanNat_toDigits n
  cases hl : Nat.toDigits 10 n with
  | nil => rw [hl] at h1; simp [scanNat] at h1
  | cons c cs =>
    refine ⟨c, cs, rfl, ?_, ?_⟩
    · rintro rfl
      have hd : digitVal '-' = none := by decide
      rw [hl] at h1
      simp [scanNat, scanDigits, hd] at h1
    · rintro rfl
      have hd : digitVal '+' = none := by decide
      rw [hl] at h1
      simp [scanNat, scanDigits, hd] at h1

/-- Parsing the decimal rendering of an integer gives the integer back. -/
theorem SetString10_bigString (v : Int) : SetString10 (bigString v) = some v := by
  cases v with
  | ofNat m =>
    obtain ⟨c, cs, hl, h1, h2⟩ := toDigits_head m
    have hs := scanNat_toDigits m
    have hdata : (bigString (Int.ofNat m)).data = c :: cs := by
      rw [← hl]; rfl
    unfold SetString10
    rw [hdata]
    simp only [h1, h2, if_false]
    rw [← hl, hs]
    rfl
  | negSucc m =>
    have hs := scanNat_toDigits (m + 1)
    have hdata : (bigString (Int.negSucc m)).data = '-' :: Nat.toDigits 10 (m + 1) := rfl
    unfold SetString10
    rw [hdata]
    simp only [if_true, hs]
    rfl

/-! ## The search loop -/

theorem matchLastTx_cons_skip (lastTx : Transaction) (v : BidTrace) (vs : List BidTrace)
    (hv : ¬ bigString lastTx.Value = v.Value) :
    matchLastTx lastTx (v :: vs) = matchLastTx lastTx vs := by
  simp [matchLastTx, hv]

theorem matchLastTx_cons_nil (lastTx : Transaction) (v : BidTrace) (vs : List BidTrace)
    (hv : bigString lastTx.Value = v.Value) (hto : lastTx.To = none) :
    matchLastTx lastTx (v :: vs) = none := by
  simp [matchLastTx, hv, hto]

theorem matchLastTx_cons_hit (lastTx : Transaction) (v : BidTrace) (vs : List BidTrace)
    (hv : bigString lastTx.Value = v.Value) (hto : lastTx.To = some v.ProposerFeeRecipient) :
    matchLastTx lastTx (v :: vs) = some (some v) := by
  simp [matchLastTx, hv, hto]

theorem matchLastTx_cons_other (lastTx : Transaction) (v : BidTrace) (vs : List BidTrace)
    (addr : String) (hto : lastTx.To = some addr) (ha : ¬ addr = v.ProposerFeeRecipient) :
    matchLastTx lastTx (v :: vs) = matchLastTx lastTx vs := by
  by_cases hv : bigString lastTx.Value = v.Value
  · simp [matchLastTx, hv, hto, ha]
  · simp [matchLastTx, hv]

theorem matchLastTx_panic (lastTx : Transaction) (l : List BidTrace) :
    matchLastTx lastTx l = none ↔
      lastTx.To = none ∧ ∃ b ∈ l, b.Value = bigString lastTx.Value := by
  induction l with
  | nil => simp [matchLastTx]
  | cons v vs ih =>
    by_cases hv : bigString lastTx.Value = v.Value
    · cases hto : lastTx.To with
      | none =>
        rw [matchLastTx_cons_nil lastTx v vs hv hto]
        exact ⟨fun _ => ⟨rfl, v, List.mem_cons_self _ _, hv.symm⟩, fun _ => rfl⟩
      | some addr =>
        constructor
        · intro h
          by_cases ha : addr = v.ProposerFeeRecipient
          · rw [matchLastTx_cons_hit lastTx v vs hv (by rw [hto, ha])] at h
            cases h
          · rw [matchLastTx_cons_other lastTx v vs addr hto ha, ih, hto] at h
            exact absurd h.1 (by simp)
        · intro h
          exact absurd h.1 (by simp)
    · rw [matchLastTx_cons_skip lastTx v vs hv, ih]
      constructor
      · rintro ⟨h1, b, hb, hb2⟩
        exact ⟨h1, b, List.mem_cons_of_mem _ hb, hb2⟩
      · rintro ⟨h1, b, hb, hb2⟩
        rcases List.mem_cons.mp hb with hb | hb
        · rw [hb] at hb2
          exact absurd hb2.symm hv
        · exact ⟨h1, b, hb, hb2⟩

theorem matchLastTx_none (lastTx : Transaction) (l : List BidTrace) :
    matchLastTx lastTx l = some none ↔
      (∀ b ∈ l, ¬ MatchesLastTx lastTx b) ∧
        (lastTx.To = none → ∀ b ∈ l, b.Value ≠ bigString lastTx.Value) := by
  induction l with
  | nil => simp [matchLastTx]
  | cons v vs ih =>
    have hrec : ¬ MatchesLastTx lastTx v →
        (lastTx.To = none → v.Value ≠ bigString lastTx.Value) →
        (((∀ b ∈ vs, ¬ MatchesLastTx lastTx b) ∧
            (lastTx.To = none → ∀ b ∈ vs, b.Value ≠ bigString lastTx.Value)) ↔
          ((∀ b ∈ v :: vs, ¬ MatchesLastTx lastTx b) ∧
            (lastTx.To = none → ∀ b ∈ v :: vs, b.Value ≠ bigString lastTx.Value))) := by
      intro hm hval
      constructor
      · rintro ⟨h1, h2⟩
        refine ⟨?_, ?_⟩
        · intro b hb
          rcases List.mem_cons.mp hb with hb | hb
          · rw [hb]; exact hm
          · exact h1 b hb
        · intro hto b hb
          rcases List.mem_cons.mp hb with hb | hb
          · rw [hb]; exact hval hto
          · exact h2 hto b hb
      · rintro ⟨h1, h2⟩
        exact ⟨fun b hb => h1 b (List.mem_cons_of_mem _ hb),
          fun hto b hb => h2 hto b (List.mem_cons_of_mem _ hb)⟩
    by_cases hv : bigString lastTx.Value = v.Value
    · cases hto : lastTx.To with
      | none =>
        rw [matchLastTx_cons_nil lastTx v vs hv hto]
        constructor
        · intro h; cases h
        · intro h
          exact absurd hv.symm (h.2 rfl v (List.mem_cons_self _ _))
      | some addr =>
        by_cases ha : addr = v.ProposerFeeRecipient
        · have hm : MatchesLastTx lastTx v := ⟨hv.symm, by rw [hto, ha]⟩
          rw [matchLastTx_cons_hit lastTx v vs hv (by rw [hto, ha])]
          constructor
          · intro h; cases h
          · intro h
            exact absurd hm (h.1 v (List.mem_cons_self _ _))
        · have hm : ¬ MatchesLastTx lastTx v := by
            intro hm
            have h2 := hm.2
            rw [hto] at h2
            exact ha (Option.some.inj h2)
          rw [matchLastTx_cons_other lastTx v vs addr hto ha, ih, ← hto]
          exact hrec hm (fun h0 => by rw [hto] at h0; cases h0)
    · have hm : ¬ MatchesLastTx lastTx v := fun hm => hv hm.1.symm
      rw [matchLastTx_cons_skip lastTx v vs hv, ih]
      exact hrec hm (fun _ h0 => hv h0.symm)

theorem matchLastTx_some (lastTx : Transaction) (l : List BidTrace) (m : BidTrace)
    (h : matchLastTx lastTx l = some (some m)) :
    ∃ pre post, l = pre ++ m :: post ∧ (∀ x ∈ pre, ¬ MatchesLastTx lastTx x) ∧
      MatchesLastTx lastTx m := by
  induction l with
  | nil => simp [matchLastTx] at h
  | cons v vs ih =>
    have hcons : ∀ (hm : ¬ MatchesLastTx lastTx v), matchLastTx lastTx vs = some (some m) →
        ∃ pre post, v :: vs = pre ++ m :: post ∧ (∀ x ∈ pre, ¬ MatchesLastTx lastTx x) ∧
          MatchesLastTx lastTx m := by
      intro hm h2
      obtain ⟨pre, post, h1, h2, h3⟩ := ih h2
      refine ⟨v :: pre, post, by simp [h1], ?_, h3⟩
      intro x hx
      rcases List.mem_cons.mp hx with hx | hx
      · rw [hx]; exact hm
      · exact h2 x hx
    by_cases hv : bigString lastTx.Value = v.Value
    · cases hto : lastTx.To with
      | none => simp [matchLastTx, hv, hto] at h
      | some addr =>
        by_cases ha : addr = v.ProposerFeeRecipient
        · simp only [matchLastTx, hv, hto, ha, if_true, Option.some.injEq] at h
          subst h
          exact ⟨[], vs, rfl, by simp, ⟨hv.symm, by rw [hto, ha]⟩⟩
        · simp only [matchLastTx, hv, hto, ha, if_true, if_false] at h
          refine hcons ?_ h
          intro hm
          have := hm.2
          rw [hto] at this
          exact ha (Option.some.inj this)
    · simp only [matchLastTx, hv, if_false] at h
      exact hcons (fun hm => hv hm.1.symm) h

/-! ## Block-reward resolution -/

theorem calculateVanila_ok (c : NativeClient) (blockNumberStr : String) (n reward : Int)
    (h : Hash) (hparse : SetString10 blockNumberStr = some n)
    (hnode : (c.GetBlockRewardByBlockNumber n).1 = some (Except.ok (reward, h))) :
    calculateVanilaBlockReward c blockNumberStr =
      (some (Except.ok ("vanilla", bigString reward)), (c.GetBlockRewardByBlockNumber n).2) := by
  simp [calculateVanilaBlockReward, hparse, hnode]

theorem calculateMev_ok (c : NativeClient) (first : BidTrace) (rest : List BidTrace)
    (beaconBlock : BeaconBlockResponse) (n reward : Int) (h : Hash) (lastTx : Transaction)
    (hparse : SetString10 first.BlockNumber = some n)
    (hnode : (c.GetBlockRewardByBlockNumber n).1 = some (Except.ok (reward, h)))
    (htx : (c.GetTransactionByHash h).1 = Except.ok lastTx) :
    calculateMevBlockReward c (first :: rest) beaconBlock =
      match matchLastTx lastTx (first :: rest) with
      | none => (none, (c.GetBlockRewardByBlockNumber n).2 ++ (c.GetTransactionByHash h).2)
      | some none =>
        (some (Except.ok ("vanilla", bigString reward)),
          (c.GetBlockRewardByBlockNumber n).2 ++ (c.GetTransactionByHash h).2 ++
            (c.GetBlockRewardByBlockNumber n).2)
      | some (some b) =>
        (some (rewardOfMatch beaconBlock b reward),
          (c.GetBlockRewardByBlockNumber n).2 ++ (c.GetTransactionByHash h).2) := by
  simp only [calculateMevBlockReward, hparse, hnode, htx]
  cases hm : matchLastTx lastTx (first :: rest) with
  | none => rfl
  | some o =>
    cases o with
    | none => simp [calculateVanila_ok c first.BlockNumber n reward h hparse hnode]
    | some b => rfl

/-- C2: for a non-empty list of bid traces whose first block number parses, when the node
returns the block reward and the last transaction of that block and some entry matches the
last transaction in value and recipient, `calculateMevBlockReward` returns status "mev"; the
first matching entry `m` decides the reward: its value string unchanged when the fee recipient
of the beacon block differs from its proposer fee recipient, and otherwise the decimal
rendering of the matched value (which parses to the value of the last transaction) plus the
node-derived block reward. -/
theorem calculateMevBlockReward_mev (c : NativeClient) (first : BidTrace)
    (rest : List BidTrace) (beaconBlock : BeaconBlockResponse) (n reward : Int) (h : Hash)
    (lastTx : Transaction)
    (hparse : SetString10 first.BlockNumber = some n)
    (hnode : (c.GetBlockRewardByBlockNumber n).1 = some (Except.ok (reward, h)))
    (htx : (c.GetTransactionByHash h).1 = Except.ok lastTx)
    (hex : ∃ b ∈ first :: rest,
      b.Value = bigString lastTx.Value ∧ lastTx.To = some b.ProposerFeeRecipient) :
    ∃ pre m post, first :: rest = pre ++ m :: post ∧
      (∀ x ∈ pre,
        ¬ (x.Value = bigString lastTx.Value ∧ lastTx.To = some x.ProposerFeeRecipient)) ∧
      m.Value = bigString lastTx.Value ∧ lastTx.To = some m.ProposerFeeRecipient ∧
      (beaconBlock.FeeRecipient ≠ m.ProposerFeeRecipient →
        (calculateMevBlockReward c (first :: rest) beaconBlock).1 =
          some (Except.ok ("mev", m.Value))) ∧
      (beaconBlock.FeeRecipient = m.ProposerFeeRecipient →
        SetString10 m.Value = some lastTx.Value ∧
          (calculateMevBlockReward c (first :: rest) beaconBlock).1 =
            some (Except.ok ("mev", bigString (lastTx.Value + reward)))) := by
  have hcalc := calculateMev_ok c first rest beaconBlock n reward h lastTx hparse hnode htx
  obtain ⟨b, hb, hb2⟩ := hex
  cases hm : matchLastTx lastTx (first :: rest) with
  | none =>
    have hp := (matchLastTx_panic lastTx (first :: rest)).mp hm
    rw [hp.1] at hb2
    exact absurd hb2.2 (by simp)
  | some o =>
    cases o with
    | none =>
      exact absurd hb2 (((matchLastTx_none lastTx (first :: rest)).mp hm).1 b hb)
    | some m =>
      rw [hm] at hcalc
      obtain ⟨pre, post, h1, h2, h3⟩ := matchLastTx_some lastTx (first :: rest) m hm
      have hval : SetString10 m.Value = some lastTx.Value := by
        rw [h3.1]; exact SetString10_bigString lastTx.Value
      refine ⟨pre, m, post, h1, h2, h3.1, h3.2, ?_, ?_⟩
      · intro hne
        simp [hcalc, rewardOfMatch, hne]
      · intro heq
        exact ⟨hval, by simp [hcalc, rewardOfMatch, heq, hval]⟩

/-- C2, example: the only bid trace matches the last transaction (value 70 to `0xA1`); with
another fee recipient in the beacon block the reward is the bid value "70", and with `0xA1` as
fee recipient of the beacon block it is 70 plus the block reward 130. -/
theorem calculateMevBlockReward_mev_witness :
    (calculateMevBlockReward demoNode [demoBid5] demoBeacon).1 =
        some (Except.ok ("mev", "70")) ∧
      (calculateMevBlockReward demoNode [demoBid5] demoBeaconSelf).1 =
        some (Except.ok ("mev", "200")) := by
  constructor
  · obtain ⟨pre, m, post, h1, _, _, _, h5, _⟩ :=
      calculateMevBlockReward_mev demoNode demoBid5 [] demoBeacon 900 130 "0xT1"
        ⟨some "0xA1", 70⟩ (by decide) rfl rfl ⟨demoBid5, by decide, by decide, by decide⟩
    have hm : m = demoBid5 := by
      cases pre with
      | nil => simp at h1; exact h1.1.symm
      | cons x xs => simp at h1
    subst hm
    exact h5 (by decide)
  · obtain ⟨pre, m, post, h1, _, _, _, _, h6⟩ :=
      calculateMevBlockReward_mev demoNode demoBid5 [] demoBeaconSelf 900 130 "0xT1"
        ⟨some "0xA1", 70⟩ (by decide) rfl rfl ⟨demoBid5, by decide, by decide, by decide⟩
    have hm : m = demoBid5 := by
      cases pre with
      | nil => simp at h1; exact h1.1.symm
      | cons x xs => simp at h1
    subst hm
    exact (h6 (by decide)).2

/-- The resolution without bid traces: the vanilla reward of the block of the beacon block. -/
theorem resolveBlockreward_vanilla (c : NativeClient) (beaconBlock : BeaconBlockResponse)
    (n reward : Int) (h : Hash)
    (hparse : SetString10 beaconBlock.BlockNumber = some n)
    (hnode : (c.GetBlockRewardByBlockNumber n).1 = some (Except.ok (reward, h))) :
    resolveBlockreward c [] beaconBlock =
      (some (Except.ok ("vanilla", bigString reward)), (c.GetBlockRewardByBlockNumber n).2) := by
  simp [resolveBlockreward, calculateVanila_ok c beaconBlock.BlockNumber n reward h hparse hnode]

/-- C4, the code at the failing input: the last transaction of block 900 creates a contract
and carries the value 70, the bid trace has value "70"; no entry matches the last transaction
in both fields (it has no recipient), but the resolution panics in the search loop instead of
returning the vanilla reward 130, which it returns for a bid trace of another value. -/
theorem calculateMevBlockReward_creation_panics :
    SetString10 demoBid5.BlockNumber = some 900 ∧
      (demoNodeCreation.GetBlockRewardByBlockNumber 900).1 = some (Except.ok (130, "0xT1")) ∧
      (demoNodeCreation.GetTransactionByHash "0xT1").1 = Except.ok ⟨none, 70⟩ ∧
      ¬ (demoBid5.Value = bigString 70 ∧
        (none : Option String) = some demoBid5.ProposerFeeRecipient) ∧
      (calculateMevBlockReward demoNodeCreation [demoBid5] demoBeacon).1 = none ∧
      (calculateMevBlockReward demoNodeCreation [demoBid6] demoBeacon).1 =
        some (Except.ok ("vanilla", "130")) :=
  ⟨by decide, rfl, rfl, by decide, rfl, rfl⟩

/-- Where the search loop does not panic (the last transaction has a recipient, or no bid trace
carries its value): if no entry matches the last transaction in both value and recipient,
`calculateMevBlockReward` returns status "vanilla" with the block reward of the block numbered
by the first bid trace.  And, whatever the node answers, a result with status "mev" occurs only
if some entry matches the last transaction in both fields. -/
theorem calculateMevBlockReward_vanilla (c : NativeClient) (first : BidTrace)
    (rest : List BidTrace) (beaconBlock : BeaconBlockResponse) :
    (∀ (n reward : Int) (h : Hash) (lastTx : Transaction),
      SetString10 first.BlockNumber = some n →
      (c.GetBlockRewardByBlockNumber n).1 = some (Except.ok (reward, h)) →
      (c.GetTransactionByHash h).1 = Except.ok lastTx →
      (∀ b ∈ first :: rest, ¬ MatchesLastTx lastTx b) →
      (lastTx.To = none → ∀ b ∈ first :: rest, b.Value ≠ bigString lastTx.Value) →
      (calculateMevBlockReward c (first :: rest) beaconBlock).1 =
        some (Except.ok ("vanilla", bigString reward))) ∧
    (∀ rewardStr : String,
      (calculateMevBlockReward c (first :: rest) beaconBlock).1 =
        some (Except.ok ("mev", rewardStr)) →
      ∃ (n reward : Int) (h : Hash) (lastTx : Transaction),
        SetString10 first.BlockNumber = some n ∧
        (c.GetBlockRewardByBlockNumber n).1 = some (Except.ok (reward, h)) ∧
        (c.GetTransactionByHash h).1 = Except.ok lastTx ∧
        ∃ b ∈ first :: rest, MatchesLastTx lastTx b) := by
  constructor
  · intro n reward h lastTx hparse hnode htx hno hval
    rw [calculateMev_ok c first rest beaconBlock n reward h lastTx hparse hnode htx,
      (matchLastTx_none lastTx (first :: rest)).mpr ⟨hno, hval⟩]
  · intro rewardStr hres
    cases hparse : SetString10 first.BlockNumber with
    | none => simp [calculateMevBlockReward, hparse] at hres
    | some n =>
      cases hnode : (c.GetBlockRewardByBlockNumber n).1 with
      | none => simp [calculateMevBlockReward, hparse, hnode] at hres
      | some r =>
        cases r with
        | error e => simp [calculateMevBlockReward, hparse, hnode] at hres
        | ok p =>
          obtain ⟨reward, h⟩ := p
          cases htx : (c.GetTransactionByHash h).1 with
          | error e => simp [calculateMevBlockReward, hparse, hnode, htx] at hres
          | ok lastTx =>
            rw [calculateMev_ok c first rest beaconBlock n reward h lastTx hparse hnode htx]
              at hres
            cases hm : matchLastTx lastTx (first :: rest) with
            | none => simp [hm] at hres
            | some o =>
              cases o with
              | none => simp [hm] at hres
              | some m =>
                obtain ⟨pre, post, h1, _, h3⟩ := matchLastTx_some lastTx (first :: rest) m hm
                exact ⟨n, reward, h, lastTx, rfl, hnode, htx, m, by rw [h1]; simp, h3⟩

theorem GetBlockReward_log (c : NativeClient) (n : Int) :
    NodeCall.HeaderByNumber n ∈ (c.GetBlockRewardByBlockNumber n).2 ∧
      ∀ call ∈ (c.GetBlockRewardByBlockNumber n).2,
        call = NodeCall.HeaderByNumber n ∨ call = NodeCall.BlockReceipts (bigInt64 n) := by
  unfold NativeClient.GetBlockRewardByBlockNumber
  cases c.HeaderByNumber n with
  | error e => simp
  | ok header =>
    cases c.BlockReceipts (bigInt64 n) with
    | error e => simp
    | ok txReceipts => simp

theorem calculateVanila_log (c : NativeClient) (blockNumberStr : String) :
    (∀ n, SetString10 blockNumberStr = some n →
      (calculateVanilaBlockReward c blockNumberStr).2 = (c.GetBlockRewardByBlockNumber n).2) ∧
    (SetString10 blockNumberStr = none → (calculateVanilaBlockReward c blockNumberStr).2 = []) := by
  constructor
  · intro n hparse
    simp only [calculateVanilaBlockReward, hparse]
    cases (c.GetBlockRewardByBlockNumber n).1 with
    | none => rfl
    | some r =>
      cases r with
      | error e => rfl
      | ok p => rfl
  · intro hparse
    simp [calculateVanilaBlockReward, hparse]

/-- The requests that `calculateMevBlockReward` sends for a block number that parses: those of
the block reward, then possibly the last transaction, then possibly the block reward again. -/
theorem calculateMev_log (c : NativeClient) (first : BidTrace) (rest : List BidTrace)
    (beaconBlock : BeaconBlockResponse) (n : Int)
    (hparse : SetString10 first.BlockNumber = some n) :
    NodeCall.HeaderByNumber n ∈ (calculateMevBlockReward c (first :: rest) beaconBlock).2 ∧
      ∀ call ∈ (calculateMevBlockReward c (first :: rest) beaconBlock).2,
        call ∈ (c.GetBlockRewardByBlockNumber n).2 ∨
          ∃ reward h, (c.GetBlockRewardByBlockNumber n).1 = some (Except.ok (reward, h)) ∧
            call = NodeCall.TransactionByHash h := by
  have hlog := (GetBlockReward_log c n).1
  cases hnode : (c.GetBlockRewardByBlockNumber n).1 with
  | none =>
    simp only [calculateMevBlockReward, hparse, hnode]
    exact ⟨hlog, fun call hcall => Or.inl hcall⟩
  | some r =>
    cases r with
    | error e =>
      simp only [calculateMevBlockReward, hparse, hnode]
      exact ⟨hlog, fun call hcall => Or.inl hcall⟩
    | ok p =>
      obtain ⟨reward, h⟩ := p
      have htxlog : ∀ call ∈ (c.GetTransactionByHash h).2,
          ∃ reward2 h2, (some (Except.ok (reward, h)) : Option (Except GoError (Int × Hash))) =
            some (Except.ok (reward2, h2)) ∧
            call = NodeCall.TransactionByHash h2 := by
        intro call hc
        refine ⟨reward, h, rfl, ?_⟩
        simpa [NativeClient.GetTransactionByHash] using hc
      cases htx : (c.GetTransactionByHash h).1 with
      | error e =>
        simp only [calculateMevBlockReward, hparse, hnode, htx]
        refine ⟨List.mem_append_left _ hlog, ?_⟩
        intro call hcall
        rcases List.mem_append.mp hcall with hc | hc
        · exact Or.inl hc
        · exact Or.inr (htxlog call hc)
      | ok lastTx =>
        rw [calculateMev_ok c first rest beaconBlock n reward h lastTx hparse hnode htx]
        cases hm : matchLastTx lastTx (first :: rest) with
        | none =>
          refine ⟨List.mem_append_left _ hlog, ?_⟩
          intro call hcall
          rcases List.mem_append.mp hcall with hc | hc
          · exact Or.inl hc
          · exact Or.inr (htxlog call hc)
        | some o =>
          cases o with
          | none =>
            refine ⟨List.mem_append_left _ (List.mem_append_left _ hlog), ?_⟩
            intro call hcall
            simp only [List.mem_append] at hcall
            rcases hcall with (hc | hc) | hc
            · exact Or.inl hc
            · exact Or.inr (htxlog call hc)
            · exact Or.inl hc
          | some m =>
            refine ⟨List.mem_append_left _ hlog, ?_⟩
            intro call hcall
            rcases List.mem_append.mp hcall with hc | hc
            · exact Or.inl hc
            · exact Or.inr (htxlog call hc)

/-- C5, as stated, fails: the relay reports block 900 for the slot, the beacon block of the
slot is block 901, and the resolution prices block 900 (header, receipts and last transaction
of block 900 are requested; block 901 is never asked for). -/
theorem resolveBlockreward_priced_block_mismatch :
    SetString10 demoBeacon.BlockNumber = some 901 ∧
      (resolveBlockreward demoNode [demoBid5] demoBeacon).2 =
        [NodeCall.HeaderByNumber 900, NodeCall.BlockReceipts 900,
          NodeCall.TransactionByHash "0xT1"] := by
  decide

/-- C5 (amended): the block number that the resolution has the node price is the parse of the
block-number string of the beacon block when there is no bid trace and of the first bid trace
otherwise: when that string parses to `n` the node is asked for the header of block `n`; every
header request is for that `n`, every receipts request is for the `int64` form of that `n`,
and every transaction request is for the last-transaction hash that the node-derived block
reward of block `n` came with.  This holds of the requests sent in every run, whether the
resolution returns a result, returns an error or panics. -/
theorem resolveBlockreward_priced_block (c : NativeClient) (bidTraces : List BidTrace)
    (beaconBlock : BeaconBlockResponse) :
    (∀ n, SetString10 (blockNumberUsed bidTraces beaconBlock) = some n →
      NodeCall.HeaderByNumber n ∈ (resolveBlockreward c bidTraces beaconBlock).2) ∧
    ∀ call ∈ (resolveBlockreward c bidTraces beaconBlock).2,
      ∃ n, SetString10 (blockNumberUsed bidTraces beaconBlock) = some n ∧
        (call = NodeCall.HeaderByNumber n ∨ call = NodeCall.BlockReceipts (bigInt64 n) ∨
          ∃ reward h, (c.GetBlockRewardByBlockNumber n).1 = some (Except.ok (reward, h)) ∧
            call = NodeCall.TransactionByHash h) := by
  cases bidTraces with
  | nil =>
    have hres : resolveBlockreward c [] beaconBlock =
        calculateVanilaBlockReward c beaconBlock.BlockNumber := by
      simp [resolveBlockreward]
    rw [hres]
    constructor
    · intro n hn
      rw [(calculateVanila_log c beaconBlock.BlockNumber).1 n hn]
      exact (GetBlockReward_log c n).1
    · intro call hcall
      cases hparse : SetString10 beaconBlock.BlockNumber with
      | none =>
        rw [(calculateVanila_log c beaconBlock.BlockNumber).2 hparse] at hcall
        simp at hcall
      | some n =>
        rw [(calculateVanila_log c beaconBlock.BlockNumber).1 n hparse] at hcall
        refine ⟨n, hparse, ?_⟩
        rcases (GetBlockReward_log c n).2 call hcall with h | h
        · exact Or.inl h
        · exact Or.inr (Or.inl h)
  | cons first rest =>
    have hres : resolveBlockreward c (first :: rest) beaconBlock =
        calculateMevBlockReward c (first :: rest) beaconBlock := by
      simp [resolveBlockreward]
    rw [hres]
    cases hparse : SetString10 first.BlockNumber with
    | none =>
      have hlog : (calculateMevBlockReward c (first :: rest) beaconBlock).2 = [] := by
        simp [calculateMevBlockReward, hparse]
      rw [hlog]
      constructor
      · intro n hn
        simp [blockNumberUsed, hparse] at hn
      · intro call hcall
        simp at hcall
    | some n =>
      obtain ⟨h2, h3⟩ := calculateMev_log c first rest beaconBlock n hparse
      constructor
      · intro k hk
        simp only [blockNumberUsed, hparse, Option.some.injEq] at hk
        rw [← hk]; exact h2
      · intro call hcall
        refine ⟨n, hparse, ?_⟩
        rcases h3 call hcall with h | h
        · rcases (GetBlockReward_log c n).2 call h with h | h
          · exact Or.inl h
          · exact Or.inr (Or.inl h)
        · exact Or.inr (Or.inr h)

/-- C5 (amended), example: the bid trace names block 900, the beacon block is block 901; the
node is asked for the header of block 900, the block number parsed from the bid trace. -/
theorem resolveBlockreward_priced_block_witness :
    NodeCall.HeaderByNumber 900 ∈ (resolveBlockreward demoNode [demoBid5] demoBeacon).2 ∧
      ∃ n, SetString10 (blockNumberUsed [demoBid5] demoBeacon) = some n ∧
        (NodeCall.HeaderByNumber 900 = NodeCall.HeaderByNumber n ∨
          NodeCall.HeaderByNumber 900 = NodeCall.BlockReceipts (bigInt64 n) ∨
          ∃ reward h, (demoNode.GetBlockRewardByBlockNumber n).1 =
              some (Except.ok (reward, h)) ∧
            NodeCall.HeaderByNumber 900 = NodeCall.TransactionByHash h) :=
  have h := resolveBlockreward_priced_block demoNode [demoBid5] demoBeacon
  ⟨h.1 900 (by decide), h.2 _ (h.1 900 (by decide))⟩

/-- C9: when the block-number string that the resolution has to use (the one of the beacon
block without bid traces, the one of the first bid trace otherwise) does not parse as a decimal
integer, the resolution returns an error, hence neither status nor reward, and sends no request
to the node; and when the value of the matched bid trace does not parse where the self-pay
addition needs it, the result is an error as well. -/
theorem resolveBlockreward_parse_failure (c : NativeClient) (beaconBlock : BeaconBlockResponse) :
    (SetString10 beaconBlock.BlockNumber = none →
      ∃ e, resolveBlockreward c [] beaconBlock = (some (Except.error e), [])) ∧
    (∀ (first : BidTrace) (rest : List BidTrace), SetString10 first.BlockNumber = none →
      ∃ e, resolveBlockreward c (first :: rest) beaconBlock = (some (Except.error e), [])) ∧
    (∀ (bidTrace : BidTrace) (blockReward : Int),
      beaconBlock.FeeRecipient = bidTrace.ProposerFeeRecipient →
      SetString10 bidTrace.Value = none →
      ∃ e, rewardOfMatch beaconBlock bidTrace blockReward = Except.error e) := by
  refine ⟨?_, ?_, ?_⟩
  · intro h
    exact ⟨_, by simp [resolveBlockreward, calculateVanilaBlockReward, h]; rfl⟩
  · intro first rest h
    exact ⟨_, by simp [resolveBlockreward, calculateMevBlockReward, h]; rfl⟩
  · intro bidTrace blockReward hfee h
    exact ⟨_, by simp [rewardOfMatch, hfee, h]; rfl⟩

/-- C9, example: a hexadecimal block number in the beacon block, no bid trace: an error and no
request to the node. -/
theorem resolveBlockreward_parse_failure_witness :
    SetString10 "0x10" = none ∧
      ∃ e, resolveBlockreward demoNode [] ⟨"5", "0xF0", "0x10"⟩ = (some (Except.error e), []) :=
  ⟨by decide,
    (resolveBlockreward_parse_failure demoNode ⟨"5", "0xF0", "0x10"⟩).1 (by decide)⟩

/-! ## The block reward -/

theorem lastIndex_iff (len : Nat) (h1 : 0 < len) (h2 : len < 2 ^ 63) (idx : Uint64) :
    intOfUint idx = (len : Int) - 1 ↔ idx.val + 1 = len := by
  have h3 := idx.isLt
  unfold intOfUint
  split <;> omega

theorem rewardLoop_cons_some (len : Int) (r : Receipt) (rs : List Receipt) (totalTxFee : Int)
    (lastTxHash : Hash) (price : Int) (hp : r.EffectiveGasPrice = some price) :
    rewardLoop len (r :: rs) totalTxFee lastTxHash =
      rewardLoop len rs (totalTxFee + price * (r.GasUsed.val : Int))
        (if intOfUint r.TransactionIndex = len - 1 then r.TxHash else lastTxHash) := by
  simp [rewardLoop, rewardStep, hp]

theorem foldl_rewardStep_none (len : Int) (rs : List Receipt) :
    rs.foldl (rewardStep len) none = none := by
  induction rs with
  | nil => rfl
  | cons r rs ih => simpa [rewardStep] using ih

theorem rewardLoop_cons_none (len : Int) (r : Receipt) (rs : List Receipt) (totalTxFee : Int)
    (lastTxHash : Hash) (hp : r.EffectiveGasPrice = none) :
    rewardLoop len (r :: rs) totalTxFee lastTxHash = none := by
  simp [rewardLoop, rewardStep, hp, foldl_rewardStep_none]

/-- The loop panics exactly when some receipt has a nil `EffectiveGasPrice`. -/
theorem rewardLoop_none_iff (len : Int) (rs : List Receipt) (totalTxFee : Int)
    (lastTxHash : Hash) :
    rewardLoop len rs totalTxFee lastTxHash = none ↔ ∃ r ∈ rs, r.EffectiveGasPrice = none := by
  induction rs generalizing totalTxFee lastTxHash with
  | nil => simp [rewardLoop]
  | cons r rs ih =>
    cases hp : r.EffectiveGasPrice with
    | none =>
      rw [rewardLoop_cons_none len r rs totalTxFee lastTxHash hp]
      simp only [true_iff]
      exact ⟨r, List.mem_cons_self r rs, hp⟩
    | some price =>
      rw [rewardLoop_cons_some len r rs totalTxFee lastTxHash price hp, ih]
      constructor
      · rintro ⟨x, hx, hxp⟩
        exact ⟨x, List.mem_cons_of_mem r hx, hxp⟩
      · rintro ⟨x, hx, hxp⟩
        rcases List.mem_cons.mp hx with hx | hx
        · rw [hx, hp] at hxp
          cases hxp
        · exact ⟨x, hx, hxp⟩

/-- Where the loop does not panic, `totalTxFee` has grown by the sum of the fees, and
`lastTxHash` is the hash of a receipt with index `len - 1`, or unchanged when there is none. -/
theorem rewardLoop_some (len : Nat) (h1 : 0 < len) (h2 : len < 2 ^ 63) (rs : List Receipt)
    (totalTxFee : Int) (lastTxHash : Hash) (hp : ∀ r ∈ rs, r.EffectiveGasPrice ≠ none) :
    ∃ hash, rewardLoop (len : Int) rs totalTxFee lastTxHash =
        some (totalTxFee + (rs.map Receipt.fee).sum, hash) ∧
      ((∃ r ∈ rs, r.TransactionIndex.val + 1 = len ∧ hash = r.TxHash) ∨
        ((∀ r ∈ rs, r.TransactionIndex.val + 1 ≠ len) ∧ hash = lastTxHash)) := by
  induction rs generalizing totalTxFee lastTxHash with
  | nil => exact ⟨lastTxHash, by simp [rewardLoop], Or.inr ⟨by simp, rfl⟩⟩
  | cons r rs ih =>
    cases hpr : r.EffectiveGasPrice with
    | none => exact absurd hpr (hp r (List.mem_cons_self r rs))
    | some price =>
      obtain ⟨hash, heq, hcase⟩ := ih (totalTxFee + price * (r.GasUsed.val : Int))
        (if intOfUint r.TransactionIndex = (len : Int) - 1 then r.TxHash else lastTxHash)
        (fun x hx => hp x (List.mem_cons_of_mem r hx))
      refine ⟨hash, ?_, ?_⟩
      · rw [rewardLoop_cons_some (len : Int) r rs totalTxFee lastTxHash price hpr, heq,
          List.map_cons, List.sum_cons, Receipt.fee, hpr, Option.getD_some]
        congr 2
        ring
      · rcases hcase with ⟨x, hx, hc, hres⟩ | ⟨hnone, hres⟩
        · exact Or.inl ⟨x, List.mem_cons_of_mem r hx, hc, hres⟩
        · by_cases hr : r.TransactionIndex.val + 1 = len
          · left
            refine ⟨r, List.mem_cons_self r rs, hr, ?_⟩
            rw [hres, if_pos ((lastIndex_iff len h1 h2 r.TransactionIndex).mpr hr)]
          · right
            constructor
            · intro x hx
              rcases List.mem_cons.mp hx with hx | hx
              · rw [hx]; exact hr
              · exact hnone x hx
            · rw [hres,
                if_neg (fun hw => hr ((lastIndex_iff len h1 h2 r.TransactionIndex).mp hw))]

/-- The computation of `GetBlockRewardByBlockNumber` panics exactly when the header has a nil
`BaseFee` or some receipt has a nil `EffectiveGasPrice`. -/
theorem blockRewardOf_none_iff (header : Header) (txReceipts : List Receipt) :
    blockRewardOf header txReceipts = none ↔
      header.BaseFee = none ∨ ∃ r ∈ txReceipts, r.EffectiveGasPrice = none := by
  rw [← rewardLoop_none_iff (txReceipts.length : Int) txReceipts 0 zeroHash]
  unfold blockRewardOf
  cases hl : rewardLoop (txReceipts.length : Int) txReceipts 0 zeroHash with
  | none => simp
  | some acc =>
    cases hb : header.BaseFee with
    | none => simp
    | some baseFee => simp

/-- Where the computation of `GetBlockRewardByBlockNumber` does not panic (a header with a
base fee, receipts with an effective gas price; a Go slice has fewer than `2 ^ 63` elements),
the reward is exactly the sum over the receipts of effective gas price times gas used, minus
base fee times gas used of the header, in unbounded integers, and the last-transaction hash is
the hash of a receipt with index `len - 1`, or the zero hash when no receipt has that index. -/
theorem blockRewardOf_formula (header : Header) (txReceipts : List Receipt) (baseFee : Int)
    (hlen : txReceipts.length < 2 ^ 63) (hbase : header.BaseFee = some baseFee)
    (hp : ∀ r ∈ txReceipts, r.EffectiveGasPrice ≠ none) :
    ∃ hash, blockRewardOf header txReceipts =
        some ((txReceipts.map Receipt.fee).sum - baseFee * (header.GasUsed.val : Int), hash) ∧
      ((∃ r ∈ txReceipts, r.TransactionIndex.val + 1 = txReceipts.length ∧ hash = r.TxHash) ∨
        ((∀ r ∈ txReceipts, r.TransactionIndex.val + 1 ≠ txReceipts.length) ∧
          hash = zeroHash)) := by
  rcases Nat.eq_zero_or_pos txReceipts.length with h0 | h0
  · have hnil : txReceipts = [] := List.length_eq_zero.mp h0
    subst hnil
    exact ⟨zeroHash, by simp [blockRewardOf, rewardLoop, hbase], Or.inr ⟨by simp, rfl⟩⟩
  · obtain ⟨hash, heq, hcase⟩ := rewardLoop_some txReceipts.length h0 hlen txReceipts 0 zeroHash hp
    refine ⟨hash, ?_, hcase⟩
    simp [blockRewardOf, heq, hbase]

/-- C10, the code at the failing input: the header of a block before the London fork has no
base fee, and `GetBlockRewardByBlockNumber` panics on the nil `BaseFee` instead of returning a
reward; with a base fee of 0 in the header the same receipt gives the reward 50 and the hash
of the receipt. -/
theorem GetBlockRewardByBlockNumber_preLondon_panics :
    demoNodePreLondon.HeaderByNumber 1 = Except.ok ⟨none, 10⟩ ∧
      demoNodePreLondon.BlockReceipts 1 = Except.ok [⟨some 5, 10, 0, "0xT0"⟩] ∧
      (demoNodePreLondon.GetBlockRewardByBlockNumber 1).1 = none ∧
      blockRewardOf ⟨some 0, 10⟩ [⟨some 5, 10, 0, "0xT0"⟩] = some (50, "0xT0") :=
  ⟨rfl, rfl, rfl, by decide⟩

/-! ## The block-reward endpoint -/

/-- C3: for every request to `GetBlockreward` whose slot parses and is not above the head slot,
for which the relay aggregation returns no bid trace and no error, the beacon block is
delivered, its block number parses to `n` and the node query for block `n` succeeds with the
block reward `reward`: the response is 200 with status "vanilla" and, as reward, the decimal
rendering of `reward`; the calls made are the head-slot query, the relay query, the
beacon-block fetch and the node requests of that one block-reward query. -/
theorem GetBlockreward_vanilla (h : Handler) (reqSlotStr : String) (reqSlot currSlot : Nat)
    (beaconBlock : BeaconBlockResponse) (n reward : Int) (lastTxHash : Hash)
    (hslot : ParseUint64 reqSlotStr = some reqSlot)
    (hhead : h.beaconRequester.GetBeaconHeaderSlot = Except.ok currSlot)
    (hpast : reqSlot ≤ currSlot)
    (hrelay : GetRelayDatasBySlot h.relayEndpoints h.net reqSlot h.sched = ([], none))
    (hblock : h.beaconRequester.GetBeaconBlockBySlot reqSlot = Except.ok beaconBlock)
    (hparse : SetString10 beaconBlock.BlockNumber = some n)
    (hnode : (h.nativeClient.GetBlockRewardByBlockNumber n).1 =
      some (Except.ok (reward, lastTxHash))) :
    GetBlockreward h reqSlotStr =
      some (⟨200, Body.GetBlockrewardResponse "vanilla" (bigString reward)⟩,
        [Downstream.GetBeaconHeaderSlot, Downstream.GetRelayDatasBySlot reqSlot,
          Downstream.GetBeaconBlockBySlot reqSlot] ++
          (h.nativeClient.GetBlockRewardByBlockNumber n).2.map Downstream.node) := by
  have hlt : ¬ currSlot < reqSlot := by omega
  have hres := resolveBlockreward_vanilla h.nativeClient beaconBlock n reward lastTxHash
    hparse hnode
  simp [GetBlockreward, hslot, hhead, hlt, hrelay, hblock, hres]

/-- C3, example: slot 7 at head slot 3000000; the relays have bid traces of the slots 5 and 6
only, the beacon block is block 901 and its block reward is 130. -/
theorem GetBlockreward_vanilla_witness :
    GetBlockreward demoHandler "7" =
      some (⟨200, Body.GetBlockrewardResponse "vanilla" "130"⟩,
        [Downstream.GetBeaconHeaderSlot, Downstream.GetRelayDatasBySlot 7,
          Downstream.GetBeaconBlockBySlot 7, Downstream.node (NodeCall.HeaderByNumber 901),
          Downstream.node (NodeCall.BlockReceipts 901)]) :=
  GetBlockreward_vanilla demoHandler "7" 7 3000000 demoBeacon 901 130 "0xT1" (by decide) rfl
    (by decide) (by decide) rfl (by decide) rfl

/-! ## The slot checks of the handlers -/

theorem ParseUint64_of_scanNat_none (s : String) (h : scanNat s.data = none) :
    ParseUint64 s = none := by
  simp [ParseUint64, h]

theorem ParseUint64_of_large (s : String) (n : Nat) (h : scanNat s.data = some n)
    (hn : 2 ^ 64 ≤ n) : ParseUint64 s = none := by
  have h2 : ¬ n < 18446744073709551616 := by
    have : (2 : Nat) ^ 64 = 18446744073709551616 := by norm_num
    omega
  simp [ParseUint64, h, h2]

theorem ParseUint64_of_small (s : String) (n : Nat) (h : scanNat s.data = some n)
    (hn : n < 2 ^ 64) : ParseUint64 s = some n := by
  have h2 : n < 18446744073709551616 := by
    have : (2 : Nat) ^ 64 = 18446744073709551616 := by norm_num
    omega
  simp [ParseUint64, h, h2]

/-- C11, as stated, fails: the slot `18446744073709551616` is a decimal integer greater than the
head slot 3000000, but it does not fit a `uint64`, so `strconv.ParseUint` reports a range error
and the response is 404, not 400. -/
theorem GetBlockreward_large_slot :
    scanNat "18446744073709551616".data = some 18446744073709551616 ∧
      demoHandler.beaconRequester.GetBeaconHeaderSlot = Except.ok 3000000 ∧
      GetBlockreward demoHandler "18446744073709551616" = some (notFound, []) :=
  ⟨by decide, rfl, by decide⟩

/-- C11 (amended): a slot parameter that is not a string of decimal digits, or that is a decimal
integer of `2 ^ 64` or more, gets 404 and no call to a collaborator is made; a decimal integer
below `2 ^ 64` that is greater than the head slot gets 400, and the head-slot query is the only
call made (no relay query, no beacon-block fetch, no node call). -/
theorem GetBlockreward_slot_checks (h : Handler) (reqSlotStr : String) :
    (scanNat reqSlotStr.data = none → GetBlockreward h reqSlotStr = some (notFound, [])) ∧
    (∀ n, scanNat reqSlotStr.data = some n → 2 ^ 64 ≤ n →
      GetBlockreward h reqSlotStr = some (notFound, [])) ∧
    (∀ n currSlot, scanNat reqSlotStr.data = some n → n < 2 ^ 64 →
      h.beaconRequester.GetBeaconHeaderSlot = Except.ok currSlot → currSlot < n →
      GetBlockreward h reqSlotStr = some (badRequest, [Downstream.GetBeaconHeaderSlot])) := by
  refine ⟨?_, ?_, ?_⟩
  · intro hs
    simp [GetBlockreward, ParseUint64_of_scanNat_none reqSlotStr hs]
  · intro n hs hn
    simp [GetBlockreward, ParseUint64_of_large reqSlotStr n hs hn]
  · intro n currSlot hs hn hhead hlt
    simp [GetBlockreward, ParseUint64_of_small reqSlotStr n hs hn, hhead, hlt]

/-- C11 (amended), example: the slots "Xhs2" and "9000000000" of the integration test, at head
slot 3000000. -/
theorem GetBlockreward_slot_checks_witness :
    GetBlockreward demoHandler "Xhs2" = some (notFound, []) ∧
      GetBlockreward demoHandler "9000000000" =
        some (badRequest, [Downstream.GetBeaconHeaderSlot]) :=
  ⟨(GetBlockreward_slot_checks demoHandler "Xhs2").1 (by decide),
    (GetBlockreward_slot_checks demoHandler "9000000000").2.2 9000000000 3000000 (by decide)
      (by decide) rfl (by decide)⟩

/-- C12: in `GetSyncduties` an unparsable slot gets 404 and a slot above the head slot gets 400;
for a slot that parses and does not exceed the head slot, the handler answers 404 without
fetching the sync committee if and only if the slot is below the constant 2375680, which is
`74240 * 32`, the first slot of epoch 74240. -/
theorem GetSyncduties_slot_checks (h : Handler) (dir : Option PubkeyMap) (reqSlotStr : String) :
    (ParseUint64 reqSlotStr = none → GetSyncduties h dir reqSlotStr = some (notFound, dir, [])) ∧
    (∀ n currSlot, ParseUint64 reqSlotStr = some n →
      h.beaconRequester.GetBeaconHeaderSlot = Except.ok currSlot → currSlot < n →
      GetSyncduties h dir reqSlotStr = some (badRequest, dir, [Downstream.GetBeaconHeaderSlot])) ∧
    (∀ n currSlot, ParseUint64 reqSlotStr = some n →
      h.beaconRequester.GetBeaconHeaderSlot = Except.ok currSlot → n ≤ currSlot →
      ((∃ out, GetSyncduties h dir reqSlotStr = some out ∧ out.1.code = 404 ∧
          Downstream.GetSyncCommitteesBySlot n ∉ out.2.2) ↔ n < syncCommitteeStartSlot)) ∧
    syncCommitteeStartSlot = 74240 * 32 := by
  refine ⟨?_, ?_, ?_, by decide⟩
  · intro hp
    simp [GetSyncduties, hp]
  · intro n currSlot hp hhead hlt
    simp [GetSyncduties, hp, hhead, hlt]
  · intro n currSlot hp hhead hle
    have hnlt : ¬ currSlot < n := by omega
    constructor
    · rintro ⟨out, hout, hcode, hfetch⟩
      by_contra hge
      simp only [GetSyncduties, hp, hhead, hnlt, hge, if_false] at hout
      cases hf : h.beaconRequester.GetSyncCommitteesBySlot n with
      | error e =>
        simp only [hf, Option.some.injEq] at hout
        subst hout
        simp [internalServerError] at hcode
      | ok idxs =>
        simp only [hf] at hout
        cases hs : syncLoop h.beaconRequester idxs dir []
            [Downstream.GetBeaconHeaderSlot, Downstream.GetSyncCommitteesBySlot n] with
        | panic => simp [hs] at hout
        | failed d calls =>
          simp only [hs, Option.some.injEq] at hout
          subst hout
          simp [internalServerError] at hcode
        | done data d calls =>
          simp only [hs, Option.some.injEq] at hout
          subst hout
          simp at hcode
    · intro hlt
      exact ⟨(notFound, dir, [Downstream.GetBeaconHeaderSlot]),
        by simp [GetSyncduties, hp, hhead, hnlt, hlt], rfl, by simp⟩

/-- C12, example: "Xhs2", "9000000000" and the last slot before the constant, at head slot
3000000. -/
theorem GetSyncduties_slot_checks_witness :
    GetSyncduties demoHandler (some []) "Xhs2" = some (notFound, some [], []) ∧
      GetSyncduties demoHandler (some []) "9000000000" =
        some (badRequest, some [], [Downstream.GetBeaconHeaderSlot]) ∧
      ∃ out, GetSyncduties demoHandler (some []) "2375679" = some out ∧ out.1.code = 404 ∧
        Downstream.GetSyncCommitteesBySlot 2375679 ∉ out.2.2 :=
  ⟨(GetSyncduties_slot_checks demoHandler (some []) "Xhs2").1 (by decide),
    (GetSyncduties_slot_checks demoHandler (some []) "9000000000").2.1 9000000000 3000000
      (by decide) rfl (by decide),
    ((GetSyncduties_slot_checks demoHandler (some []) "2375679").2.2.1 2375679 3000000
      (by decide) rfl (by decide)).mpr (by decide)⟩

/-! ## The validator directory -/
/-- C13, the code at the failing input: validator 7 of the sync committee is missing from the
directory, the rebuild succeeds and the rebuilt directory maps 7 to `0xaa`, but the response
is 200 with the empty string in the place of validator 7: the lookup is not repeated after
the rebuild. -/
theorem GetSyncduties_miss_placeholder :
    List.lookup "7" [("8", "0xbb")] = none ∧
      GetSyncduties demoHandler (some [("8", "0xbb")]) "2375680" =
        some (⟨200, Body.GetSyncdutiesResponse ["", "0xbb"]⟩,
          some [("7", "0xaa"), ("8", "0xbb")],
          [Downstream.GetBeaconHeaderSlot, Downstream.GetSyncCommitteesBySlot 2375680,
            Downstream.GetBeaconHeaderSlot, Downstream.GetValidatorsBySlot 3000000]) ∧
      List.lookup "7" [("7", "0xaa"), ("8", "0xbb")] = some "0xaa" := by
  decide

/-- C14, the code at the failing input: validator 7 of the sync committee is missing from the
directory and still missing after the rebuild has succeeded, and the response is 200 with an
empty string, not 500. -/
theorem GetSyncduties_unresolved_miss :
    GetSyncduties ⟨demoBeaconStale, demoNode, [], demoNet, []⟩ (some [("8", "0xbb")])
        "2375680" =
      some (⟨200, Body.GetSyncdutiesResponse [""]⟩, some [("8", "0xbb")],
        [Downstream.GetBeaconHeaderSlot, Downstream.GetSyncCommitteesBySlot 2375680,
          Downstream.GetBeaconHeaderSlot, Downstream.GetValidatorsBySlot 3000000]) ∧
      List.lookup "7" [("8", "0xbb")] = none := by
  decide

/-- C15, the code at the failing input: the directory is populated, the head-slot query
succeeds and the validator snapshot fails; `UpdateValidatorIndexPubkeyMap` returns the error
and leaves the nil pointer in `validatorIndexPubkey`, so the previous snapshot is gone and the
next `GetSyncduties` that reaches the loop panics. -/
theorem UpdateValidatorIndexPubkeyMap_clobbers :
    (UpdateValidatorIndexPubkeyMap demoBeaconNoSnapshot (some [("7", "0xaa")])).err =
        some (GoError.wrap (GoError.msg "timeout") "failed to GetValidatorsBySlot") ∧
      (UpdateValidatorIndexPubkeyMap demoBeaconNoSnapshot
        (some [("7", "0xaa")])).validatorIndexPubkey = none ∧
      GetSyncduties ⟨demoBeaconNoSnapshot, demoNode, [], demoNet, []⟩ none "2375680" = none := by
  decide

/-! ## The single-flight group of the directory rebuild -/

theorem foldl_arrive (b : BeaconRequester) (others : List Nat) :
    ∀ (st : FlightState) (attached : List Nat), st.inflight = some attached →
      (others.map FlightEvent.arrive).foldl (FlightState.step b) st =
        { st with inflight := some (attached ++ others) } := by
  induction others with
  | nil =>
    intro st attached h
    simp [← h]
  | cons o os ih =>
    intro st attached h
    rw [List.map_cons, List.foldl_cons]
    have hstep : FlightState.step b st (FlightEvent.arrive o) =
        { st with inflight := some (attached ++ [o]) } := by
      simp [FlightState.step, h]
    rw [hstep, ih _ (attached ++ [o]) rfl]
    simp

theorem runFlights_overlapping (b : BeaconRequester) (dir : Option PubkeyMap) (first : Nat)
    (others : List Nat) :
    runFlights b dir (overlappingCalls (first :: others)) =
      { validatorIndexPubkey := (UpdateValidatorIndexPubkeyMap b dir).validatorIndexPubkey
        inflight := none
        returned := (first :: others).map
          (fun caller => (caller, (UpdateValidatorIndexPubkeyMap b dir).err))
        executions := 1
        calls := (UpdateValidatorIndexPubkeyMap b dir).calls } := by
  have harr : FlightState.step b (FlightState.idle dir) (FlightEvent.arrive first) =
      { FlightState.idle dir with inflight := some [first] } := by
    simp [FlightState.step, FlightState.idle]
  rw [runFlights, overlappingCalls, List.map_cons, List.foldl_append, List.foldl_cons,
    List.foldl_nil, List.foldl_cons, harr, foldl_arrive b others _ [first] rfl]
  simp [FlightState.step, FlightState.idle]

theorem snapshotFetches_update (b : BeaconRequester) (dir : Option PubkeyMap) :
    (∀ slot, b.GetBeaconHeaderSlot = Except.ok slot →
      (UpdateValidatorIndexPubkeyMap b dir).calls =
        [Downstream.GetBeaconHeaderSlot, Downstream.GetValidatorsBySlot slot] ∧
      snapshotFetches (UpdateValidatorIndexPubkeyMap b dir).calls = 1) ∧
    (∀ e, b.GetBeaconHeaderSlot = Except.error e →
      (UpdateValidatorIndexPubkeyMap b dir).calls = [Downstream.GetBeaconHeaderSlot] ∧
      snapshotFetches (UpdateValidatorIndexPubkeyMap b dir).calls = 0) := by
  refine ⟨?_, ?_⟩
  · intro slot h
    cases hv : b.GetValidatorsBySlot slot <;>
      simp [UpdateValidatorIndexPubkeyMap, h, hv, snapshotFetches]
  · intro e h
    simp [UpdateValidatorIndexPubkeyMap, h, snapshotFetches]

/-- C16, the claim as worded fails: three calls that overlap in time, against a beacon node
whose head-slot query fails, run the rebuild function once, and that one execution makes no
validator-snapshot fetch at all: its only call is the head-slot query.  All three callers
receive its error and the directory is left as it was. -/
theorem UpdateValidatorIndexPubkeyMap_flight_no_fetch :
    (runFlights demoBeaconDown (some [("7", "0xaa")]) (overlappingCalls [1, 2, 3])).executions
        = 1 ∧
      (runFlights demoBeaconDown (some [("7", "0xaa")]) (overlappingCalls [1, 2, 3])).calls =
        [Downstream.GetBeaconHeaderSlot] ∧
      snapshotFetches
        (runFlights demoBeaconDown (some [("7", "0xaa")]) (overlappingCalls [1, 2, 3])).calls
        = 0 ∧
      (runFlights demoBeaconDown (some [("7", "0xaa")]) (overlappingCalls [1, 2, 3])).returned =
        [(1, some (GoError.wrap (GoError.msg "timeout") "failed to GetBeaconHeaderSlot")),
          (2, some (GoError.wrap (GoError.msg "timeout") "failed to GetBeaconHeaderSlot")),
          (3, some (GoError.wrap (GoError.msg "timeout") "failed to GetBeaconHeaderSlot"))] ∧
      (runFlights demoBeaconDown (some [("7", "0xaa")])
        (overlappingCalls [1, 2, 3])).validatorIndexPubkey = some [("7", "0xaa")] := by
  decide

/-- C16, amended: when N ≥ 1 callers of `UpdateValidatorIndexPubkeyMap` all reach the
single-flight group before the execution started by the first of them finishes, the rebuild
function is executed exactly once; the calls made to the beacon node are those of that one
execution: one head-slot query, followed by exactly one validator-snapshot fetch (at the head
slot) when the head-slot query answers and by none when it fails, so at most one fetch in
every case; every one of the N callers receives the error value of that one execution; and
afterwards nothing is in flight and the field `validatorIndexPubkey`, which all callers read,
is the one that execution left. -/
theorem UpdateValidatorIndexPubkeyMap_single_flight (b : BeaconRequester)
    (dir : Option PubkeyMap) (first : Nat) (others : List Nat) :
    (runFlights b dir (overlappingCalls (first :: others))).executions = 1 ∧
    (runFlights b dir (overlappingCalls (first :: others))).calls =
      (UpdateValidatorIndexPubkeyMap b dir).calls ∧
    (∀ slot, b.GetBeaconHeaderSlot = Except.ok slot →
      (runFlights b dir (overlappingCalls (first :: others))).calls =
        [Downstream.GetBeaconHeaderSlot, Downstream.GetValidatorsBySlot slot] ∧
      snapshotFetches (runFlights b dir (overlappingCalls (first :: others))).calls = 1) ∧
    (∀ e, b.GetBeaconHeaderSlot = Except.error e →
      (runFlights b dir (overlappingCalls (first :: others))).calls =
        [Downstream.GetBeaconHeaderSlot] ∧
      snapshotFetches (runFlights b dir (overlappingCalls (first :: others))).calls = 0) ∧
    snapshotFetches (runFlights b dir (overlappingCalls (first :: others))).calls ≤ 1 ∧
    (runFlights b dir (overlappingCalls (first :: others))).returned =
      (first :: others).map (fun caller => (caller, (UpdateValidatorIndexPubkeyMap b dir).err)) ∧
    (runFlights b dir (overlappingCalls (first :: others))).validatorIndexPubkey =
      (UpdateValidatorIndexPubkeyMap b dir).validatorIndexPubkey ∧
    (runFlights b dir (overlappingCalls (first :: others))).inflight = none := by
  rw [runFlights_overlapping]
  have hs := snapshotFetches_update b dir
  refine ⟨rfl, rfl, ?_, ?_, ?_, rfl, rfl, rfl⟩
  · intro slot h
    exact hs.1 slot h
  · intro e h
    exact hs.2 e h
  · cases h : b.GetBeaconHeaderSlot with
    | error e => exact le_of_eq_of_le (hs.2 e h).2 (Nat.zero_le 1)
    | ok slot => exact le_of_eq (hs.1 slot h).2

/-- C16, example: three overlapping calls against a beacon node that answers: one execution,
one snapshot fetch at the head slot 3000000, the three callers receive no error and the
directory is the fetched snapshot. -/
theorem UpdateValidatorIndexPubkeyMap_single_flight_witness :
    (runFlights demoBeaconNode none (overlappingCalls [1, 2, 3])).executions = 1 ∧
      (runFlights demoBeaconNode none (overlappingCalls [1, 2, 3])).calls =
        [Downstream.GetBeaconHeaderSlot, Downstream.GetValidatorsBySlot 3000000] ∧
      snapshotFetches (runFlights demoBeaconNode none (overlappingCalls [1, 2, 3])).calls = 1 ∧
      (runFlights demoBeaconNode none (overlappingCalls [1, 2, 3])).returned =
        [(1, none), (2, none), (3, none)] ∧
      (runFlights demoBeaconNode none (overlappingCalls [1, 2, 3])).validatorIndexPubkey =
        some [("7", "0xaa"), ("8", "0xbb")] :=
  have h := UpdateValidatorIndexPubkeyMap_single_flight demoBeaconNode none 1 [2, 3]
  ⟨h.1, (h.2.2.1 3000000 rfl).1, (h.2.2.1 3000000 rfl).2, h.2.2.2.2.2.1, h.2.2.2.2.2.2.1⟩

/-! ## Reachability and order independence in the resolution -/

theorem rewardOfMatch_congr (beaconBlock : BeaconBlockResponse) (m m2 : BidTrace)
    (blockReward : Int) (hv : m.Value = m2.Value)
    (hr : m.ProposerFeeRecipient = m2.ProposerFeeRecipient) :
    rewardOfMatch beaconBlock m blockReward = rewardOfMatch beaconBlock m2 blockReward := by
  simp [rewardOfMatch, hv, hr]

theorem rewardOfMatch_ok (beaconBlock : BeaconBlockResponse) (lastTx : Transaction)
    (m : BidTrace) (blockReward : Int) (hm : MatchesLastTx lastTx m) :
    rewardOfMatch beaconBlock m blockReward =
      Except.ok ("mev",
        if beaconBlock.FeeRecipient = m.ProposerFeeRecipient
        then bigString (lastTx.Value + blockReward) else bigString lastTx.Value) := by
  have hval : SetString10 m.Value = some lastTx.Value := by
    rw [hm.1]; exact SetString10_bigString lastTx.Value
  by_cases h : beaconBlock.FeeRecipient = m.ProposerFeeRecipient
  · simp [rewardOfMatch, h, hval]
  · simp [rewardOfMatch, h, hm.1]

/-- C18: an entry matched by the search loop has as value the decimal rendering of the value of
the last transaction, so it parses, and the end of `calculateMevBlockReward` returns a result
for it, never the parse error; every error of `calculateMevBlockReward` comes from the block
number not parsing, from the block-reward query or from the transaction query; and every
reward returned by the resolution is the decimal rendering of an integer. -/
theorem matched_value_canonical (c : NativeClient) (bidTraces : List BidTrace)
    (beaconBlock : BeaconBlockResponse) :
    (∀ (lastTx : Transaction) (m : BidTrace), matchLastTx lastTx bidTraces = some (some m) →
      m.Value = bigString lastTx.Value ∧ SetString10 m.Value = some lastTx.Value ∧
        ∀ blockReward : Int, ∃ r, rewardOfMatch beaconBlock m blockReward = Except.ok ("mev", r)) ∧
    (∀ e : GoError,
      (calculateMevBlockReward c bidTraces beaconBlock).1 = some (Except.error e) →
      SetString10 (blockNumberUsed bidTraces beaconBlock) = none ∨
        ∃ n, SetString10 (blockNumberUsed bidTraces beaconBlock) = some n ∧
          ((∃ e2, (c.GetBlockRewardByBlockNumber n).1 = some (Except.error e2)) ∨
            ∃ reward h e2,
              (c.GetBlockRewardByBlockNumber n).1 = some (Except.ok (reward, h)) ∧
              (c.GetTransactionByHash h).1 = Except.error e2)) ∧
    (∀ status reward : String,
      (resolveBlockreward c bidTraces beaconBlock).1 = some (Except.ok (status, reward)) →
      ∃ z : Int, reward = bigString z) := by
  refine ⟨?_, ?_, ?_⟩
  · intro lastTx m hm
    obtain ⟨_, _, _, _, h3⟩ := matchLastTx_some lastTx bidTraces m hm
    exact ⟨h3.1, by rw [h3.1]; exact SetString10_bigString _,
      fun blockReward => ⟨_, rewardOfMatch_ok beaconBlock lastTx m blockReward h3⟩⟩
  · intro e herr
    cases bidTraces with
    | nil => simp [calculateMevBlockReward] at herr
    | cons first rest =>
      cases hparse : SetString10 first.BlockNumber with
      | none => left; simp [blockNumberUsed, hparse]
      | some n =>
        right
        refine ⟨n, by simp [blockNumberUsed, hparse], ?_⟩
        cases hnode : (c.GetBlockRewardByBlockNumber n).1 with
        | none => simp [calculateMevBlockReward, hparse, hnode] at herr
        | some r =>
          cases r with
          | error e2 => exact Or.inl ⟨e2, rfl⟩
          | ok p =>
            obtain ⟨reward, h⟩ := p
            right
            cases htx : (c.GetTransactionByHash h).1 with
            | error e2 => exact ⟨reward, h, e2, rfl, htx⟩
            | ok lastTx =>
              exfalso
              rw [calculateMev_ok c first rest beaconBlock n reward h lastTx hparse hnode htx]
                at herr
              cases hm : matchLastTx lastTx (first :: rest) with
              | none => simp [hm] at herr
              | some o =>
                cases o with
                | none => simp [hm] at herr
                | some m =>
                  obtain ⟨_, _, _, _, h3⟩ := matchLastTx_some lastTx (first :: rest) m hm
                  simp [hm, rewardOfMatch_ok beaconBlock lastTx m reward h3] at herr
  · intro status rewardStr hres
    cases bidTraces with
    | nil =>
      cases hparse : SetString10 beaconBlock.BlockNumber with
      | none => simp [resolveBlockreward, calculateVanilaBlockReward, hparse] at hres
      | some n =>
        cases hnode : (c.GetBlockRewardByBlockNumber n).1 with
        | none => simp [resolveBlockreward, calculateVanilaBlockReward, hparse, hnode] at hres
        | some r =>
          cases r with
          | error e2 =>
            simp [resolveBlockreward, calculateVanilaBlockReward, hparse, hnode] at hres
          | ok p =>
            obtain ⟨reward, h⟩ := p
            simp [resolveBlockreward, calculateVanilaBlockReward, hparse, hnode] at hres
            exact ⟨reward, hres.2.symm⟩
    | cons first rest =>
      have hres2 : (calculateMevBlockReward c (first :: rest) beaconBlock).1 =
          some (Except.ok (status, rewardStr)) := by
        simpa [resolveBlockreward] using hres
      cases hparse : SetString10 first.BlockNumber with
      | none => simp [calculateMevBlockReward, hparse] at hres2
      | some n =>
        cases hnode : (c.GetBlockRewardByBlockNumber n).1 with
        | none => simp [calculateMevBlockReward, hparse, hnode] at hres2
        | some r =>
          cases r with
          | error e2 => simp [calculateMevBlockReward, hparse, hnode] at hres2
          | ok p =>
            obtain ⟨reward, h⟩ := p
            cases htx : (c.GetTransactionByHash h).1 with
            | error e2 => simp [calculateMevBlockReward, hparse, hnode, htx] at hres2
            | ok lastTx =>
              rw [calculateMev_ok c first rest beaconBlock n reward h lastTx hparse hnode htx]
                at hres2
              cases hm : matchLastTx lastTx (first :: rest) with
              | none => simp [hm] at hres2
              | some o =>
                cases o with
                | none =>
                  simp [hm] at hres2
                  exact ⟨reward, hres2.2.symm⟩
                | some m =>
                  obtain ⟨_, _, _, _, h3⟩ := matchLastTx_some lastTx (first :: rest) m hm
                  simp only [hm, rewardOfMatch_ok beaconBlock lastTx m reward h3,
                    Option.some.injEq, Except.ok.injEq, Prod.mk.injEq] at hres2
                  by_cases hfee : beaconBlock.FeeRecipient = m.ProposerFeeRecipient
                  · rw [if_pos hfee] at hres2
                    exact ⟨_, hres2.2.symm⟩
                  · rw [if_neg hfee] at hres2
                    exact ⟨_, hres2.2.symm⟩

/-- C18, example: the matched bid trace of value "70", the self-pay reward "200", and a bid
trace with a hexadecimal block number. -/
theorem matched_value_canonical_witness :
    (demoBid5.Value = bigString 70 ∧ SetString10 demoBid5.Value = some 70 ∧
      ∃ z : Int, "200" = bigString z) ∧
    (SetString10 (blockNumberUsed [demoBidBadNumber] demoBeacon) = none ∨
      ∃ n, SetString10 (blockNumberUsed [demoBidBadNumber] demoBeacon) = some n ∧
        ((∃ e2, (demoNode.GetBlockRewardByBlockNumber n).1 = some (Except.error e2)) ∨
          ∃ reward h e2,
            (demoNode.GetBlockRewardByBlockNumber n).1 = some (Except.ok (reward, h)) ∧
            (demoNode.GetTransactionByHash h).1 = Except.error e2)) :=
  have h := matched_value_canonical demoNode [demoBid5] demoBeaconSelf
  ⟨⟨(h.1 ⟨some "0xA1", 70⟩ demoBid5 (by decide)).1,
      (h.1 ⟨some "0xA1", 70⟩ demoBid5 (by decide)).2.1, h.2.2 "mev" "200" rfl⟩,
    (matched_value_canonical demoNode [demoBidBadNumber] demoBeacon).2.1 _ rfl⟩

/-- C19: for a non-empty list of bid traces that all carry the same block-number string and
any permutation of it, `calculateMevBlockReward` returns the same result (status and reward,
or error) for the same beacon block and the same node. -/
theorem calculateMevBlockReward_perm (c : NativeClient) (l l2 : List BidTrace)
    (beaconBlock : BeaconBlockResponse) (hne : l ≠ []) (hperm : l.Perm l2)
    (hbn : ∀ b ∈ l, ∀ b2 ∈ l, b.BlockNumber = b2.BlockNumber) :
    calculateMevBlockReward c l beaconBlock = calculateMevBlockReward c l2 beaconBlock := by
  cases l with
  | nil => exact absurd rfl hne
  | cons first rest =>
    cases l2 with
    | nil => exact absurd hperm.length_eq (by simp)
    | cons first2 rest2 =>
      have hmem : first2 ∈ first :: rest := hperm.symm.subset (List.mem_cons_self _ _)
      have hfb : first2.BlockNumber = first.BlockNumber :=
        hbn first2 hmem first (List.mem_cons_self _ _)
      cases hparse : SetString10 first.BlockNumber with
      | none => simp [calculateMevBlockReward, hparse, hfb]
      | some n =>
        have hparse2 : SetString10 first2.BlockNumber = some n := by rw [hfb]; exact hparse
        cases hnode : (c.GetBlockRewardByBlockNumber n).1 with
        | none => simp [calculateMevBlockReward, hparse, hparse2, hnode]
        | some r =>
          cases r with
          | error e2 => simp [calculateMevBlockReward, hparse, hparse2, hnode]
          | ok p =>
            obtain ⟨reward, h⟩ := p
            cases htx : (c.GetTransactionByHash h).1 with
            | error e2 => simp [calculateMevBlockReward, hparse, hparse2, hnode, htx]
            | ok lastTx =>
              rw [calculateMev_ok c first rest beaconBlock n reward h lastTx hparse hnode htx,
                calculateMev_ok c first2 rest2 beaconBlock n reward h lastTx hparse2 hnode htx]
              cases hm : matchLastTx lastTx (first :: rest) with
              | none =>
                obtain ⟨hto, b, hb, hb2⟩ := (matchLastTx_panic lastTx (first :: rest)).mp hm
                have hm2 : matchLastTx lastTx (first2 :: rest2) = none :=
                  (matchLastTx_panic lastTx (first2 :: rest2)).mpr
                    ⟨hto, b, hperm.subset hb, hb2⟩
                rw [hm2]
              | some o =>
                cases o with
                | none =>
                  obtain ⟨hno, hval⟩ := (matchLastTx_none lastTx (first :: rest)).mp hm
                  have hm2 : matchLastTx lastTx (first2 :: rest2) = some none :=
                    (matchLastTx_none lastTx (first2 :: rest2)).mpr
                      ⟨fun b hb => hno b (hperm.symm.subset hb),
                        fun hto b hb => hval hto b (hperm.symm.subset hb)⟩
                  rw [hm2]
                | some m =>
                  obtain ⟨_, _, h1, _, h3⟩ := matchLastTx_some lastTx (first :: rest) m hm
                  have hmm : m ∈ first :: rest := by rw [h1]; simp
                  cases hm2 : matchLastTx lastTx (first2 :: rest2) with
                  | none =>
                    have hto := ((matchLastTx_panic lastTx (first2 :: rest2)).mp hm2).1
                    have h4 := h3.2
                    rw [hto] at h4
                    cases h4
                  | some o2 =>
                    cases o2 with
                    | none =>
                      have hnone := ((matchLastTx_none lastTx (first2 :: rest2)).mp hm2).1
                      exact absurd h3 (hnone m (hperm.subset hmm))
                    | some m2 =>
                      obtain ⟨_, _, _, _, h4⟩ :=
                        matchLastTx_some lastTx (first2 :: rest2) m2 hm2
                      have hrec : m.ProposerFeeRecipient = m2.ProposerFeeRecipient :=
                        Option.some.inj (h3.2.symm.trans h4.2)
                      simp only []
                      rw [rewardOfMatch_congr beaconBlock m m2 reward (h3.1.trans h4.1.symm)
                        hrec]

/-- C19, example: two bid traces of block 900, one matching, in both orders. -/
theorem calculateMevBlockReward_perm_witness :
    calculateMevBlockReward demoNode [demoBid5Other, demoBid5] demoBeacon =
      calculateMevBlockReward demoNode [demoBid5, demoBid5Other] demoBeacon :=
  calculateMevBlockReward_perm demoNode [demoBid5Other, demoBid5] [demoBid5, demoBid5Other]
    demoBeacon (by decide) (List.Perm.swap _ _ _) (by decide)

/-! ## The url mask -/

theorem splitOnP_not_mem {α : Type} (p : α → Bool) (xs : List α) :
    ∀ seg ∈ xs.splitOnP p, ∀ a ∈ seg, p a = false := by
  induction xs with
  | nil =>
    intro seg hseg a ha
    simp [List.splitOnP_nil] at hseg
    subst hseg
    simp at ha
  | cons x xs ih =>
    intro seg hseg a ha
    rw [List.splitOnP_cons] at hseg
    by_cases hp : p x = true
    · simp only [hp, if_true, List.mem_cons] at hseg
      rcases hseg with hseg | hseg
      · subst hseg; simp at ha
      · exact ih seg hseg a ha
    · simp only [hp] at hseg
      cases hsp : xs.splitOnP p with
      | nil => simp [hsp] at hseg
      | cons hd tl =>
        rw [hsp] at hseg ih
        simp only [Bool.false_eq_true, if_false, List.modifyHead_cons, List.mem_cons] at hseg
        rcases hseg with hseg | hseg
        · subst hseg
          rcases List.mem_cons.mp ha with ha | ha
          · subst ha; simpa using hp
          · exact ih hd (List.mem_cons_self _ _) a ha
        · exact ih seg (List.mem_cons_of_mem _ hseg) a ha

theorem Split_no_slash (url : String) : ∀ s ∈ Split url, '/' ∉ s.data := by
  intro s hs hmem
  simp only [Split, List.mem_map] at hs
  obtain ⟨seg, hseg, rfl⟩ := hs
  have := splitOnP_not_mem (fun c => c == '/') url.data seg hseg '/' hmem
  simp at this

theorem Split_ne_nil (url : String) : Split url ≠ [] := by
  simp only [Split, ne_eq, List.map_eq_nil_iff]
  exact List.splitOnP_ne_nil _ _

theorem Split_Join (l : List String) (hne : l ≠ []) (h : ∀ s ∈ l, '/' ∉ s.data) :
    Split (Join l) = l := by
  have h1 : ∀ seg ∈ l.map String.data, '/' ∉ seg := by
    intro seg hseg
    obtain ⟨s, hs, rfl⟩ := List.mem_map.mp hseg
    exact h s hs
  have h2 : l.map String.data ≠ [] := by simpa using hne
  simp only [Split, Join]
  rw [List.splitOn_intercalate _ '/' h1 h2, List.map_map]
  have : (String.mk ∘ String.data) = id := by
    funext s
    rfl
  rw [this, List.map_id]

theorem sanitized_no_slash (url : String) :
    ∀ s ∈ ((Split url).set 2 "\x7bENDPOINT\x7d").set 3 "\x7bKEY\x7d", '/' ∉ s.data := by
  intro s hs
  rcases List.mem_or_eq_of_mem_set hs with hs | hs
  · rcases List.mem_or_eq_of_mem_set hs with hs | hs
    · exact Split_no_slash url s hs
    · subst hs; decide
  · subst hs; decide

/-- C17: for a url that splits on "/" into at least four segments, `sanitizeUrl` returns a
string whose segments are those of the url with the third replaced by the endpoint mark and
the fourth by the key mark: same number of segments, every other segment unchanged.  Hence a
second url with the same segments outside the third and fourth position sanitizes to the same
string. -/
theorem sanitizeUrl_segments (url : String) (h4 : 4 ≤ (Split url).length) :
    (∃ r, sanitizeUrl url = some r ∧
      Split r = ((Split url).set 2 "\x7bENDPOINT\x7d").set 3 "\x7bKEY\x7d" ∧
      (Split r).length = (Split url).length ∧
      (Split r)[2]? = some "\x7bENDPOINT\x7d" ∧ (Split r)[3]? = some "\x7bKEY\x7d" ∧
      ∀ i, i ≠ 2 → i ≠ 3 → (Split r)[i]? = (Split url)[i]?) ∧
    (∀ url2 : String, (Split url2).length = (Split url).length →
      (∀ i, i ≠ 2 → i ≠ 3 → (Split url2)[i]? = (Split url)[i]?) →
      sanitizeUrl url2 = sanitizeUrl url) := by
  have hs : ∀ u : String, 4 ≤ (Split u).length → sanitizeUrl u =
      some (Join (((Split u).set 2 "\x7bENDPOINT\x7d").set 3 "\x7bKEY\x7d")) := by
    intro u hu
    have h2 : 2 < (Split u).length := by omega
    have h3 : 3 < (Split u).length := by omega
    simp [sanitizeUrl, h2, h3]
  constructor
  · refine ⟨_, hs url h4, ?_⟩
    have hsplit : Split (Join (((Split url).set 2 "\x7bENDPOINT\x7d").set 3 "\x7bKEY\x7d")) =
        ((Split url).set 2 "\x7bENDPOINT\x7d").set 3 "\x7bKEY\x7d" := by
      apply Split_Join
      · intro hnil
        simp at hnil
        exact Split_ne_nil url hnil
      · exact sanitized_no_slash url
    rw [hsplit]
    refine ⟨rfl, by simp, ?_, ?_, ?_⟩
    · rw [List.getElem?_set_ne (by decide), List.getElem?_set_self (by omega)]
    · rw [List.getElem?_set_self (by simp; omega)]
    · intro i hi2 hi3
      rw [List.getElem?_set_ne (Ne.symm hi3), List.getElem?_set_ne (Ne.symm hi2)]
  · intro url2 hlen hseg
    rw [hs url h4, hs url2 (by omega)]
    congr 2
    apply List.ext_getElem?
    intro i
    by_cases hi3 : i = 3
    · subst hi3
      rw [List.getElem?_set_self (by simp; omega), List.getElem?_set_self (by simp; omega)]
    · rw [List.getElem?_set_ne (Ne.symm hi3), List.getElem?_set_ne (Ne.symm hi3)]
      by_cases hi2 : i = 2
      · subst hi2
        rw [List.getElem?_set_self (by omega), List.getElem?_set_self (by omega)]
      · rw [List.getElem?_set_ne (Ne.symm hi2), List.getElem?_set_ne (Ne.symm hi2)]
        exact hseg i hi2 hi3

/-- C17, example: the url of the unit test, and a url that differs from it in host and key
only. -/
theorem sanitizeUrl_segments_witness :
    sanitizeUrl "https://node.com/key1234/eth/v1/something" =
        some "https://\x7bENDPOINT\x7d/\x7bKEY\x7d/eth/v1/something" ∧
      sanitizeUrl "https://other.org/secret/eth/v1/something" =
        sanitizeUrl "https://node.com/key1234/eth/v1/something" :=
  ⟨by decide,
    (sanitizeUrl_segments "https://node.com/key1234/eth/v1/something" (by decide)).2
      "https://other.org/secret/eth/v1/something" (by decide) (by
        intro i hi2 hi3
        have hcases : i = 0 ∨ i = 1 ∨ i = 4 ∨ i = 5 ∨ i = 6 ∨ 7 ≤ i := by omega
        rcases hcases with h | h | h | h | h | h
        · subst h; decide
        · subst h; decide
        · subst h; decide
        · subst h; decide
        · subst h; decide
        · have h1 : (Split "https://other.org/secret/eth/v1/something").length = 7 := by decide
          have h2 : (Split "https://node.com/key1234/eth/v1/something").length = 7 := by decide
          rw [List.getElem?_eq_none (by omega), List.getElem?_eq_none (by omega)])⟩

/-- C20: `sanitizeUrl` returns a result if and only if its input splits on "/" into at least
four segments; with fewer segments it panics, and so does `NewNativeClient` when the dial
fails for such an endpoint. -/
theorem sanitizeUrl_returns_iff (url : String) :
    ((sanitizeUrl url).isSome = true ↔ 4 ≤ (Split url).length) ∧
    ((Split url).length < 4 →
      sanitizeUrl url = none ∧
        ∀ (dial : String → Except GoError NativeClient) (err : GoError),
          dial url = Except.error err → NewNativeClient dial url = none) := by
  have hnone : (Split url).length < 4 → sanitizeUrl url = none := by
    intro h
    by_cases h2 : 2 < (Split url).length
    · have h3 : ¬ 3 < (Split url).length := by omega
      simp [sanitizeUrl, h2, h3]
    · simp [sanitizeUrl, h2]
  constructor
  · constructor
    · intro h
      by_contra hlt
      rw [hnone (by omega)] at h
      simp at h
    · intro h
      have h2 : 2 < (Split url).length := by omega
      have h3 : 3 < (Split url).length := by omega
      simp [sanitizeUrl, h2, h3]
  · intro h
    refine ⟨hnone h, ?_⟩
    intro dial err hdial
    simp [NewNativeClient, hdial, hnone h]

/-- C20, example: "localhost:8545" has one segment and "http://localhost:8545" has three. -/
theorem sanitizeUrl_returns_iff_witness :
    sanitizeUrl "localhost:8545" = none ∧ sanitizeUrl "http://localhost:8545" = none ∧
      NewNativeClient (fun _ => Except.error (GoError.msg "dial failed")) "localhost:8545" =
        none :=
  ⟨((sanitizeUrl_returns_iff "localhost:8545").2 (by decide)).1,
    ((sanitizeUrl_returns_iff "http://localhost:8545").2 (by decide)).1,
    ((sanitizeUrl_returns_iff "localhost:8545").2 (by decide)).2 _
      (GoError.msg "dial failed") rfl⟩

end EhValidator
